import Mathlib

/-!
# CTraj: simulated trajectories and the gyroscope factor

A shallow embedding of `ctraj/core/simu_trajectory.h` and
`ctraj/factors/imu_gyro_factor.hpp`.

Conventions of the embedding.

* A C++ `double` is an element of a linearly ordered field `K`; the theorems about
  `std::cos`, `std::sin` and the square root are stated over `ℝ`.  Rounding is not modelled.
* `Eigen::Vector3d` is `Fin 3 → K`, `Eigen::Matrix3d` is `Matrix (Fin 3) (Fin 3) K`.
* Library functions (`std::cos`, `std::sin`, `sqrt`) and the constant `M_PI` are arguments
  of the definitions that use them, so every definition is computable over `ℚ`.
* A loop runs on fuel; the theorems give the fuel that suffices.
* Values drawn from a random engine are arguments of the function that draws them.
* The spline of a `SimuTrajectory` is a value in the first part of the development; the
  section on shared splines puts it behind an address in a store of spline objects.
* `Sophus::SE3d` is the semidirect product `SE3 R V` of a rotation group `R` acting on a
  translation space `V`; its exponential and logarithm are arguments (`LieOps`).
* Code of the repository that the two files call but that is not part of them
  (`Trajectory`, `Posed`, `SplineMeta`, `IMUFrame`, `CeresSplineHelper`) is modelled from the
  specification or taken as an argument; each such definition says so.
-/

namespace CTraj

/-! ## Vectors, matrices and poses -/

/-- Three-vector of scalars, `Eigen::Vector3d`. -/
abbrev Vector3 (K : Type) := Fin 3 → K

/-- Three by three matrix of scalars, `Eigen::Matrix3d`. -/
abbrev Matrix3 (K : Type) := Matrix (Fin 3) (Fin 3) K

/-- Eigen: `squaredNorm()`, the sum of the squared coefficients. -/
def Vector3.squaredNorm {K : Type} [Add K] [Mul K] (v : Vector3 K) : K :=
  v 0 * v 0 + v 1 * v 1 + v 2 * v 2

/-- Eigen: `norm()`, the square root of `squaredNorm()`. -/
def Vector3.norm {K : Type} [Add K] [Mul K] (sqrt : K → K) (v : Vector3 K) : K :=
  sqrt (Vector3.squaredNorm v)

/-- Eigen: `normalized()`. The vector is divided by its norm when its squared norm is
positive and returned unchanged otherwise. -/
def Vector3.normalized {K : Type} [LinearOrderedField K] (sqrt : K → K) (n : Vector3 K) :
    Vector3 K :=
  let z := Vector3.squaredNorm n
  if 0 < z then fun i => n i / sqrt z else n

/-- Eigen: `a.cross(b)`. -/
def Vector3.cross {K : Type} [CommRing K] (a b : Vector3 K) : Vector3 K :=
  ![a 1 * b 2 - a 2 * b 1, a 2 * b 0 - a 0 * b 2, a 0 * b 1 - a 1 * b 0]

/-- The matrix whose columns are written one by one: `m.col(0) = c0; m.col(1) = c1;
m.col(2) = c2`. -/
def Matrix3.ofCols {K : Type} (c0 c1 c2 : Vector3 K) : Matrix3 K :=
  Matrix.of fun i j => (![c0, c1, c2] j) i

/-- Write one coefficient: `m(i, j) = v`. -/
def Matrix3.setCoeff {K : Type} (m : Matrix3 K) (i j : Fin 3) (v : K) : Matrix3 K :=
  Matrix.of fun a b => if a = i ∧ b = j then v else m a b

/-- Write the diagonal: `m.diagonal() = d`. -/
def Matrix3.setDiagonal {K : Type} (m : Matrix3 K) (d : Vector3 K) : Matrix3 K :=
  Matrix.of fun a b => if a = b then d a else m a b

/-- Modelled from the spec: `Posed` (`ctraj/core/pose.hpp`) is not among the sources. A pose
sample is a timestamped pose; the sources read and write its members `so3`, `t` and
`timeStamp` and build it as `Posed(so3, t, timeStamp)`. -/
structure Posed (R V K : Type) where
  /-- The orientation. -/
  so3 : R
  /-- The position. -/
  t : V
  /-- The time of the sample. -/
  timeStamp : K

/-! ## Rigid transforms -/

/-- Sophus: a rigid transform `SE3`, a rotation `so3` followed by a translation. -/
@[ext]
structure SE3 (R V : Type) where
  /-- The rotation part, `so3()`. -/
  so3 : R
  /-- The translation part, `translation()`. -/
  translation : V

/-- Sophus: group composition, `(R₁, t₁) * (R₂, t₂) = (R₁ R₂, t₁ + R₁ t₂)`. -/
instance SE3.instMul {R V : Type} [Mul R] [Add V] [SMul R V] : Mul (SE3 R V) :=
  ⟨fun a b => ⟨a.so3 * b.so3, a.translation + a.so3 • b.translation⟩⟩

/-- Sophus: the default transform is the identity. -/
instance SE3.instOne {R V : Type} [One R] [Zero V] : One (SE3 R V) := ⟨⟨1, 0⟩⟩

/-- Sophus: `inverse()`, `(R, t)⁻¹ = (R⁻¹, -(R⁻¹ t))`. -/
instance SE3.instInv {R V : Type} [Inv R] [Neg V] [SMul R V] : Inv (SE3 R V) :=
  ⟨fun a => ⟨a.so3⁻¹, -(a.so3⁻¹ • a.translation)⟩⟩

/-- Rigid transforms form a group. -/
instance SE3.instGroup {R V : Type} [Group R] [AddCommGroup V] [DistribMulAction R V] :
    Group (SE3 R V) where
  mul_assoc a b c := by
    rcases a with ⟨ra, ta⟩
    rcases b with ⟨rb, tb⟩
    rcases c with ⟨rc, tc⟩
    show (⟨ra * rb * rc, ta + ra • tb + (ra * rb) • tc⟩ : SE3 R V)
      = ⟨ra * (rb * rc), ta + ra • (tb + rb • tc)⟩
    rw [mul_assoc, mul_smul, smul_add, add_assoc]
  one_mul a := by
    rcases a with ⟨ra, ta⟩
    show (⟨1 * ra, 0 + (1 : R) • ta⟩ : SE3 R V) = ⟨ra, ta⟩
    rw [one_mul, one_smul, zero_add]
  mul_one a := by
    rcases a with ⟨ra, ta⟩
    show (⟨ra * 1, ta + ra • (0 : V)⟩ : SE3 R V) = ⟨ra, ta⟩
    rw [mul_one, smul_zero, add_zero]
  inv_mul_cancel a := by
    rcases a with ⟨ra, ta⟩
    show (⟨ra⁻¹ * ra, -(ra⁻¹ • ta) + ra⁻¹ • ta⟩ : SE3 R V) = ⟨1, 0⟩
    rw [inv_mul_cancel, neg_add_cancel]

/-- Modelled from the spec: `Posed::se3()` is not among the sources; the rigid transform of
a pose sample, made of its orientation and position. -/
def Posed.se3 {R V K : Type} (p : Posed R V K) : SE3 R V := ⟨p.so3, p.t⟩

/-- Modelled from the spec: `Posed::FromSE3` is not among the sources; the pose sample with
the orientation and position of a rigid transform and the given timestamp. -/
def Posed.FromSE3 {R V K : Type} (se3 : SE3 R V) (timeStamp : K) : Posed R V K :=
  ⟨se3.so3, se3.translation, timeStamp⟩

/-! ## The spline (`Trajectory`), modelled from the specification -/

/-- Modelled from the spec: `Trajectory` is not among the sources. A spline is an ordered
sequence of knots with a uniform knot spacing `dt` and a start time; its order is the
template argument `Order`, passed to the functions that need it. -/
structure Trajectory (G K : Type) where
  /-- The knots, in time order. -/
  knots : List G
  /-- The uniform knot spacing. -/
  dt : K
  /-- The time of the first knot. -/
  startTime : K

/-- Modelled from the spec: `NumKnots()`, the current knot count. -/
def Trajectory.NumKnots {G K : Type} (tr : Trajectory G K) : Nat := tr.knots.length

/-- Modelled from the spec: `GetKnot(i)`, bounds-checked read of knot `i`. -/
def Trajectory.GetKnot {G K : Type} (tr : Trajectory G K) (i : Nat) : Option G :=
  tr.knots[i]?

/-- Modelled from the spec: `SetKnot(knot, i)`, bounds-checked write of knot `i`. -/
def Trajectory.SetKnot {G K : Type} (tr : Trajectory G K) (knot : G) (i : Nat) :
    Option (Trajectory G K) :=
  if i < tr.knots.length then some { tr with knots := tr.knots.set i knot } else none

/-- Modelled from the spec: `MinTime()`, the start of the validity interval. -/
def Trajectory.MinTime {G K : Type} (tr : Trajectory G K) : K := tr.startTime

/-- Modelled from the spec: `MaxTime()`, the exclusive end of the validity interval, derived
from `dt`, the order and the knot count: a query needs a forward window of `Order + 1`
knots. -/
def Trajectory.MaxTime {G K : Type} [Ring K] (Order : Nat) (tr : Trajectory G K) : K :=
  tr.startTime + ((tr.NumKnots : K) - (Order : K)) * tr.dt

/-- Modelled from the spec: `ComputeSplineIndex(t, baseIndex, u)` is not among the sources.
`baseIndex = floor((t - startTime) / dt)` and `u = (t - startTime) / dt - baseIndex`; it
fails when `t` is outside `[MinTime, MaxTime)`. -/
def Trajectory.ComputeSplineIndex {G K : Type} [LinearOrderedField K] [FloorRing K]
    (Order : Nat) (tr : Trajectory G K) (t : K) : Option (Nat × K) :=
  if tr.MinTime ≤ t ∧ t < tr.MaxTime Order then
    let st : K := (t - tr.startTime) / tr.dt
    some (⌊st⌋₊, st - (⌊st⌋₊ : K))
  else none

/-- The Lie-group primitive the spline consumes: exponential map, logarithm map and the
scaling of a tangent vector by a basis weight. -/
structure LieOps (G A K : Type) where
  /-- Exponential map, tangent vector to group element. -/
  exp : A → G
  /-- Logarithm map, group element to tangent vector. -/
  log : G → A
  /-- Product of a scalar weight and a tangent vector. -/
  scale : K → A → A

/-- Modelled from the spec: the chain of exponential maps of weighted relative-motion
increments between consecutive knots. `lam j u` is the cumulative basis weight of increment
`j` at the local parameter `u`; `prev` is the knot before the remaining ones. -/
def LieOps.chain {G A K : Type} [Group G] (L : LieOps G A K) (lam : Nat → K → K) (u : K) :
    Nat → G → List G → G
  | _, _, [] => 1
  | j, prev, knot :: rest =>
    L.exp (L.scale (lam j u) (L.log (prev⁻¹ * knot))) * LieOps.chain L lam u (j + 1) knot rest

/-- Modelled from the spec: `Evaluate(knots_window, u, ...)` is not among the sources. The
interpolated pose is the first knot of the window right-multiplied by the chain of
exponential maps; the window must hold `Order + 1` knots. -/
def LieOps.Evaluate {G A K : Type} [Group G] (L : LieOps G A K) (lam : Nat → K → K)
    (Order : Nat) (window : List G) (u : K) : Option G :=
  match window with
  | [] => none
  | first :: rest =>
    if rest.length = Order then some (first * L.chain lam u 1 first rest) else none

/-- Modelled from the spec: evaluation of the spline at time `t`. The index helper gives
the first knot of the active window and `u`; the window of `Order + 1` knots is blended by
`Evaluate`. It fails outside `[MinTime, MaxTime)`. -/
def Trajectory.EvaluateAt {G A K : Type} [Group G] [LinearOrderedField K] [FloorRing K]
    (L : LieOps G A K) (lam : Nat → K → K) (Order : Nat) (tr : Trajectory G K) (t : K) :
    Option G :=
  match tr.ComputeSplineIndex Order t with
  | none => none
  | some (i, u) => L.Evaluate lam Order ((tr.knots.drop i).take (Order + 1)) u

/-! ## `SimuTrajectory` and its transform operators -/

/-- The members of `SimuTrajectory`: the cached pose samples, the sampling rate and the
spline. -/
structure SimuTrajectory (R V K : Type) where
  /-- The cached discrete pose sequence. -/
  _poseSeq : List (Posed R V K)
  /-- The sampling rate. -/
  _hz : K
  /-- The spline. -/
  _trajectory : Trajectory (SE3 R V) K

/-- The copy constructor `SimuTrajectory(const SimuTrajectory &other)`. It copies `_hz` and
`_poseSeq`, builds its own spline with `Traj::Create(0.0, 0.0, 0.0)` and then assigns the
spline of `other` to it. `Create` is the spline constructor. -/
def SimuTrajectory.copy {R V K : Type} [Zero K]
    (Create : K → K → K → Option (Trajectory (SE3 R V) K)) (other : SimuTrajectory R V K) :
    Option (SimuTrajectory R V K) :=
  match Create 0 0 0 with
  | none => none
  | some _created => some ⟨other._poseSeq, other._hz, other._trajectory⟩

/-- The knot loop shared by the three operators:
`for (int i = 0; i < NumKnots(); ++i) { SetKnot(f(GetKnot(i)), i); }`, started at `i` with
`fuel` iterations allowed. -/
def SimuTrajectory.knotLoop {G K : Type} (f : G → G) :
    Nat → Nat → Trajectory G K → Option (Trajectory G K)
  | 0, i, tr => if i < tr.NumKnots then none else some tr
  | fuel + 1, i, tr =>
    if i < tr.NumKnots then
      match tr.GetKnot i with
      | none => none
      | some curKnot =>
        match tr.SetKnot (f curKnot) i with
        | none => none
        | some tr1 => SimuTrajectory.knotLoop f fuel (i + 1) tr1
    else some tr

/-- Source `SimuTrajectory::operator*(const Sophus::SE3d &pose)`, the right multiplication
`self * pose`. -/
def SimuTrajectory.opMul {R V K : Type} [Zero K] [Mul R] [Add V] [SMul R V]
    (Create : K → K → K → Option (Trajectory (SE3 R V) K)) (self : SimuTrajectory R V K)
    (pose : SE3 R V) : Option (SimuTrajectory R V K) :=
  match SimuTrajectory.copy Create self with
  | none => none
  | some newTraj =>
    let poseSeq := newTraj._poseSeq.map fun item =>
      Posed.FromSE3 (item.se3 * pose) item.timeStamp
    match SimuTrajectory.knotLoop (fun curKnot => curKnot * pose)
        newTraj._trajectory.NumKnots 0 newTraj._trajectory with
    | none => none
    | some traj => some ⟨poseSeq, newTraj._hz, traj⟩

/-- Source `SimuTrajectory::operator!()`, the pointwise inverse. -/
def SimuTrajectory.opNot {R V K : Type} [Zero K] [Inv R] [Neg V] [SMul R V]
    (Create : K → K → K → Option (Trajectory (SE3 R V) K)) (self : SimuTrajectory R V K) :
    Option (SimuTrajectory R V K) :=
  match SimuTrajectory.copy Create self with
  | none => none
  | some newTraj =>
    let poseSeq := newTraj._poseSeq.map fun item =>
      Posed.FromSE3 (item.se3)⁻¹ item.timeStamp
    match SimuTrajectory.knotLoop (fun curKnot => curKnot⁻¹)
        newTraj._trajectory.NumKnots 0 newTraj._trajectory with
    | none => none
    | some traj => some ⟨poseSeq, newTraj._hz, traj⟩

/-- The friend `operator*(const Sophus::SE3d &pose, const SimuTrajectory &simuTrajectory)`,
the left multiplication `pose * simuTrajectory`. -/
def SimuTrajectory.opMulLeft {R V K : Type} [Zero K] [Mul R] [Add V] [SMul R V]
    (Create : K → K → K → Option (Trajectory (SE3 R V) K)) (pose : SE3 R V)
    (simuTrajectory : SimuTrajectory R V K) : Option (SimuTrajectory R V K) :=
  match SimuTrajectory.copy Create simuTrajectory with
  | none => none
  | some newTraj =>
    let poseSeq := newTraj._poseSeq.map fun item =>
      Posed.FromSE3 (pose * item.se3) item.timeStamp
    match SimuTrajectory.knotLoop (fun curKnot => pose * curKnot)
        newTraj._trajectory.NumKnots 0 newTraj._trajectory with
    | none => none
    | some traj => some ⟨poseSeq, newTraj._hz, traj⟩

/-! ## Motion generators (`GenPoseSequenceAtTime`) -/

/-- Source `SimuCircularMotion::GenPoseSequenceAtTime`. The orientation is the matrix handed to
`Sophus::SO3d`. -/
def SimuCircularMotion.GenPoseSequenceAtTime {K : Type} [LinearOrderedField K]
    (cos sin sqrt : K → K) (_radius : K) (t : K) : Posed (Matrix3 K) (Vector3 K) K :=
  let trans : Vector3 K := ![cos t * _radius, sin t * _radius, 0]
  let yAxis : Vector3 K := -Vector3.normalized sqrt trans
  let xAxis : Vector3 K := Vector3.normalized sqrt ![-trans 1, trans 0, 0]
  let zAxis : Vector3 K := Vector3.cross xAxis yAxis
  ⟨Matrix3.ofCols xAxis yAxis zAxis, trans, t⟩

/-- Source `SimuUniformLinearMotion::GenPoseSequenceAtTime`. `MinTime` and `MaxTime` are the bounds
reported by the generator's spline. -/
def SimuUniformLinearMotion.GenPoseSequenceAtTime {K : Type} [LinearOrderedField K]
    (sqrt : K → K) (_from _to : Vector3 K) (MinTime MaxTime : K) (t : K) :
    Posed (Matrix3 K) (Vector3 K) K :=
  let trans : Vector3 K := fun i => _from i + (_to i - _from i) * t / (MaxTime - MinTime)
  let xAxis : Vector3 K := Vector3.normalized sqrt (_to - _from)
  let yAxis : Vector3 K := Vector3.normalized sqrt ![-xAxis 1, xAxis 0, 0]
  let zAxis : Vector3 K := Vector3.cross xAxis yAxis
  ⟨Matrix3.ofCols xAxis yAxis zAxis, trans, t⟩

/-- The local `linearAcce` of `SimuUniformAcceleratedMotion::GenPoseSequenceAtTime`:
`(_to - _from) * 2.0 / std::pow(MaxTime - MinTime, 2.0)`. -/
def SimuUniformAcceleratedMotion.linearAcce {K : Type} [LinearOrderedField K]
    (_from _to : Vector3 K) (MinTime MaxTime : K) : Vector3 K :=
  fun i => (_to i - _from i) * 2 / (MaxTime - MinTime) ^ 2

/-- Source `SimuUniformAcceleratedMotion::GenPoseSequenceAtTime`. -/
def SimuUniformAcceleratedMotion.GenPoseSequenceAtTime {K : Type} [LinearOrderedField K]
    (sqrt : K → K) (_from _to : Vector3 K) (MinTime MaxTime : K) (t : K) :
    Posed (Matrix3 K) (Vector3 K) K :=
  let linearAcce : Vector3 K :=
    SimuUniformAcceleratedMotion.linearAcce _from _to MinTime MaxTime
  let trans : Vector3 K := fun i => _from i + 2⁻¹ * linearAcce i * t * t
  let xAxis : Vector3 K := Vector3.normalized sqrt (_to - _from)
  let yAxis : Vector3 K := Vector3.normalized sqrt ![-xAxis 1, xAxis 0, 0]
  let zAxis : Vector3 K := Vector3.cross xAxis yAxis
  ⟨Matrix3.ofCols xAxis yAxis zAxis, trans, t⟩

/-! ## The gyroscope factor -/

/-- Modelled from the spec: `IMUFrame` (`ctraj/core/imu.h`) is not among the sources. A
gyroscope reading is a measured vector with a timestamp, read through `GetTimestamp()` and
`GetGyro()`. -/
structure IMUFrame (K : Type) where
  /-- Value of `GetTimestamp()`. -/
  timestamp : K
  /-- Value of `GetGyro()`. -/
  gyro : Vector3 K

/-- Modelled from the spec: `SplineMeta` is not among the sources. The factor reads the knot
spacing of the first segment, the number of knot blocks and the index computation, which are
taken as given. -/
structure SplineMeta (K : Type) where
  /-- Knot spacing, `segments.front().dt`. -/
  dt : K
  /-- Value of `NumParameters()`, the number of knot blocks. -/
  NumParameters : Nat
  /-- Result of `ComputeSplineIndex(t, SO3_OFFSET, u)` as the pair `(SO3_OFFSET, u)`. -/
  ComputeSplineIndex : K → Nat × K

/-- Sophus: the action `SO3 * point` of a rotation stored as the quaternion coefficients
`(x, y, z, w)` at the start of a parameter block. -/
def SO3.act {K : Type} [CommRing K] (q : Nat → K) (p : Vector3 K) : Vector3 K :=
  let vec : Vector3 K := ![q 0, q 1, q 2]
  let w : K := q 3
  let uv : Vector3 K := Vector3.cross vec p
  let uv2 : Vector3 K := uv + uv
  p + w • uv2 + Vector3.cross vec uv2

/-- The matrix `gyroMapMat` of `IMUGyroFactor::operator()`: a zero matrix whose diagonal
and three coefficients above it are then written from `gyroCoeff`. -/
def IMUGyroFactor.gyroMapMat {K : Type} [Zero K] (gyroCoeff : Nat → K) : Matrix3 K :=
  let m0 : Matrix3 K := Matrix.of fun _ _ => 0
  let m1 := Matrix3.setDiagonal m0 ![gyroCoeff 0, gyroCoeff 1, gyroCoeff 2]
  let m2 := Matrix3.setCoeff m1 0 1 (gyroCoeff 3)
  let m3 := Matrix3.setCoeff m2 0 2 (gyroCoeff 4)
  Matrix3.setCoeff m3 1 2 (gyroCoeff 5)

/-- Source `IMUGyroFactor::operator()`. `sKnots b i` is coefficient `i` of parameter block `b`.
`EvaluateLie knots u dtInv` is the angular velocity written by
`CeresSplineHelper::EvaluateLie(knots, u, dtInv, nullptr, &gyroVel)`, which is not among the
sources. The result is the returned flag and the residual vector. -/
def IMUGyroFactor.operator {K : Type} [Field K]
    (EvaluateLie : (Nat → Nat → K) → K → K → Vector3 K)
    (_splineMeta : SplineMeta K) (_imuFrame : IMUFrame K) (_gyroWeight : K)
    (sKnots : Nat → Nat → K) : Bool × Vector3 K :=
  let _dtInv : K := 1 / _splineMeta.dt
  let SO3_OFFSET : Nat := (_splineMeta.ComputeSplineIndex _imuFrame.timestamp).1
  let u : K := (_splineMeta.ComputeSplineIndex _imuFrame.timestamp).2
  let GYRO_BIAS_OFFSET : Nat := _splineMeta.NumParameters
  let GYRO_MAP_COEFF_OFFSET : Nat := GYRO_BIAS_OFFSET + 1
  let SO3_AtoG_OFFSET : Nat := GYRO_MAP_COEFF_OFFSET + 1
  let gyroVel : Vector3 K := EvaluateLie (fun i => sKnots (SO3_OFFSET + i)) u _dtInv
  let gyroBias : Vector3 K :=
    ![sKnots GYRO_BIAS_OFFSET 0, sKnots GYRO_BIAS_OFFSET 1, sKnots GYRO_BIAS_OFFSET 2]
  let gyroCoeff : Nat → K := sKnots GYRO_MAP_COEFF_OFFSET
  let gyroMapMat : Matrix3 K := IMUGyroFactor.gyroMapMat gyroCoeff
  let SO3_AtoG : Nat → K := sKnots SO3_AtoG_OFFSET
  let residuals : Vector3 K :=
    Matrix.mulVec gyroMapMat (SO3.act SO3_AtoG gyroVel) + gyroBias - _imuFrame.gyro
  let residuals : Vector3 K := fun i => _gyroWeight * residuals i
  (true, residuals)

/-! ## Further motion generators -/

/-- Source `SimuSpiralMotion::GenPoseSequenceAtTime`. `pi` is the constant `M_PI`. -/
def SimuSpiralMotion.GenPoseSequenceAtTime {K : Type} [LinearOrderedField K]
    (cos sin sqrt : K → K) (pi : K) (_radius _heightEachCircle : K) (t : K) :
    Posed (Matrix3 K) (Vector3 K) K :=
  let trans : Vector3 K := ![cos t * _radius, sin t * _radius, t / (2 * pi) * _heightEachCircle]
  let yAxis : Vector3 K := -Vector3.normalized sqrt trans
  let xAxis : Vector3 K := Vector3.normalized sqrt ![-trans 1, trans 0, 0]
  let zAxis : Vector3 K := Vector3.cross xAxis yAxis
  ⟨Matrix3.ofCols xAxis yAxis zAxis, trans, t⟩

/-- Source `SimuWaveMotion::GenPoseSequenceAtTime`. `pi` is the constant `M_PI`. -/
def SimuWaveMotion.GenPoseSequenceAtTime {K : Type} [LinearOrderedField K]
    (cos sin sqrt : K → K) (pi : K) (_radius _height : K) (t : K) :
    Posed (Matrix3 K) (Vector3 K) K :=
  let trans : Vector3 K := ![cos t * _radius, sin t * _radius, sin (2 * pi * t) * _height]
  let yAxis : Vector3 K := -Vector3.normalized sqrt trans
  let xAxis : Vector3 K := Vector3.normalized sqrt ![-trans 1, trans 0, 0]
  let zAxis : Vector3 K := Vector3.cross xAxis yAxis
  ⟨Matrix3.ofCols xAxis yAxis zAxis, trans, t⟩

/-- Eigen: `AngleAxis::toRotationMatrix()`, the rotation matrix of a rotation by `angle`
about the unit vector `axis`. -/
def AngleAxis.toRotationMatrix {K : Type} [CommRing K] (cos sin : K → K) (angle : K)
    (axis : Vector3 K) : Matrix3 K :=
  let sin_axis : Vector3 K := fun i => sin angle * axis i
  let c : K := cos angle
  let cos1_axis : Vector3 K := fun i => (1 - c) * axis i
  !![cos1_axis 0 * axis 0 + c, cos1_axis 0 * axis 1 - sin_axis 2,
      cos1_axis 0 * axis 2 + sin_axis 1;
    cos1_axis 0 * axis 1 + sin_axis 2, cos1_axis 1 * axis 1 + c,
      cos1_axis 1 * axis 2 - sin_axis 0;
    cos1_axis 0 * axis 2 - sin_axis 1, cos1_axis 1 * axis 2 + sin_axis 0,
      cos1_axis 2 * axis 2 + c]

/-- The members of `SimuDrunkardMotion` next to those of its base class: the last pose and
the bounds `(a, b)` of the two uniform distributions. The orientation of a pose is its
rotation matrix. The random engine is not part of the state: each draw is an argument of
`GenPoseSequenceAtTime`. -/
structure SimuDrunkardMotion (K : Type) where
  /-- The pose returned by the previous call. -/
  _lastState : Posed (Matrix3 K) (Vector3 K) K
  /-- Bounds of the distribution of the translation components. -/
  _randStride : K × K
  /-- Bounds of the distribution of the angles. -/
  _randAngle : K × K

/-- The member initialisers of the constructor `SimuDrunkardMotion(origin, maxStride,
maxAngleDeg, sTime, eTime, hz)`. `pi` is the constant `M_PI`; `Sophus::SO3d()` is the
identity rotation. -/
def SimuDrunkardMotion.init {K : Type} [Field K] (pi : K) (origin : Vector3 K)
    (maxStride maxAngleDeg sTime : K) : SimuDrunkardMotion K :=
  ⟨⟨1, origin, sTime⟩, (-maxStride, maxStride),
    (-maxAngleDeg / 180 * pi, maxAngleDeg / 180 * pi)⟩

/-- Source `SimuDrunkardMotion::GenPoseSequenceAtTime`. The three values drawn from
`_randStride` are `d1 d2 d3` and the three values drawn from `_randAngle` are `a1 a2 a3`, in
the order of the statements that draw them. The composition `rot3 * rot2 * rot1` of the
three axis rotations has the product of their rotation matrices as its matrix. The result is
the returned pose and the generator after the call. -/
def SimuDrunkardMotion.GenPoseSequenceAtTime {K : Type} [Field K] (cos sin : K → K)
    (self : SimuDrunkardMotion K) (t : K) (d1 d2 d3 a1 a2 a3 : K) :
    Posed (Matrix3 K) (Vector3 K) K × SimuDrunkardMotion K :=
  let deltaTrans : Vector3 K := ![d1, d2, d3]
  let rot1 : Matrix3 K := AngleAxis.toRotationMatrix cos sin a1 ![0, 0, 1]
  let rot2 : Matrix3 K := AngleAxis.toRotationMatrix cos sin a2 ![0, 1, 0]
  let rot3 : Matrix3 K := AngleAxis.toRotationMatrix cos sin a3 ![1, 0, 0]
  let deltaRotMatrix : Matrix3 K := rot3 * rot2 * rot1
  let _lastState : Posed (Matrix3 K) (Vector3 K) K :=
    ⟨deltaRotMatrix * self._lastState.so3, self._lastState.t + deltaTrans, t⟩
  (_lastState, { self with _lastState := _lastState })

/-- A proper rotation: the columns are orthonormal and the determinant is `1`. -/
def Matrix3.IsProperRotation {K : Type} [CommRing K] (m : Matrix3 K) : Prop :=
  m.transpose * m = 1 ∧ m.det = 1

/-- The frame convention of the circular, spiral and wave generators, for a pose with
orientation matrix `so3` and position `t`: the matrix is a proper rotation, its first
column is orthogonal to the position, its second column is the unit vector from the
position toward the origin, and its third column is the cross product of the first two. -/
def Posed.IsRadialFrame {K : Type} [Field K] (sqrt : K → K)
    (p : Posed (Matrix3 K) (Vector3 K) K) : Prop :=
  Matrix3.IsProperRotation p.so3 ∧
  p.so3 0 0 * p.t 0 + p.so3 1 0 * p.t 1 + p.so3 2 0 * p.t 2 = 0 ∧
  (∀ i : Fin 3, p.so3 i 1 = -(p.t i / Vector3.norm sqrt p.t)) ∧
  (∀ i : Fin 3, p.so3 i 2 = Vector3.cross (fun k => p.so3 k 0) (fun k => p.so3 k 1) i)

/-! ## The sampling loop (`SimulateTrajectory`) -/

/-- The store of spline objects; the address of an object is its index. -/
structure TrajStore (G K : Type) where
  /-- The spline objects, by address. -/
  cells : List (Trajectory G K)

/-- Construction of a new shared object holding `tr`: it gets a fresh address. -/
def TrajStore.alloc {G K : Type} (h : TrajStore G K) (tr : Trajectory G K) :
    Nat × TrajStore G K :=
  (h.cells.length, ⟨h.cells ++ [tr]⟩)

/-- Dereference of the pointer `p`. -/
def TrajStore.read {G K : Type} (h : TrajStore G K) (p : Nat) : Option (Trajectory G K) :=
  h.cells[p]?

/-- Assignment through the pointer `p`. -/
def TrajStore.write {G K : Type} (h : TrajStore G K) (p : Nat) (tr : Trajectory G K) :
    Option (TrajStore G K) :=
  if p < h.cells.length then some ⟨h.cells.set p tr⟩ else none

/-- The members of `SimuTrajectory` with the spline held through a shared pointer. -/
structure SimuTrajectoryRef (R V K : Type) where
  /-- The cached discrete pose sequence, a vector held by value. -/
  _poseSeq : List (Posed R V K)
  /-- The sampling rate. -/
  _hz : K
  /-- The address of the spline. -/
  _trajectory : Nat

/-- The copy constructor on the store: `Traj::Create(0.0, 0.0, 0.0)` makes a new spline
object, then `*this->_trajectory = *other._trajectory` assigns the value of the spline of
`other` to it. -/
def SimuTrajectoryRef.copy {R V K : Type} [Zero K]
    (Create : K → K → K → Option (Trajectory (SE3 R V) K)) (h : TrajStore (SE3 R V) K)
    (other : SimuTrajectoryRef R V K) :
    Option (SimuTrajectoryRef R V K × TrajStore (SE3 R V) K) :=
  match Create 0 0 0 with
  | none => none
  | some created =>
    match (h.alloc created).2.read other._trajectory with
    | none => none
    | some value =>
      match (h.alloc created).2.write (h.alloc created).1 value with
      | none => none
      | some h1 => some (⟨other._poseSeq, other._hz, (h.alloc created).1⟩, h1)

/-- The knot loop of the operators on the store: each `GetKnot` and `SetKnot` goes through
the pointer `p`. -/
def SimuTrajectoryRef.knotLoop {G K : Type} (f : G → G) :
    Nat → Nat → Nat → TrajStore G K → Option (TrajStore G K)
  | 0, i, p, h =>
    match h.read p with
    | none => none
    | some tr => if i < tr.NumKnots then none else some h
  | fuel + 1, i, p, h =>
    match h.read p with
    | none => none
    | some tr =>
      if i < tr.NumKnots then
        match tr.GetKnot i with
        | none => none
        | some curKnot =>
          match tr.SetKnot (f curKnot) i with
          | none => none
          | some tr1 =>
            match h.write p tr1 with
            | none => none
            | some h1 => SimuTrajectoryRef.knotLoop f fuel (i + 1) p h1
      else some h

/-- The body shared by the three operators on the store: copy the operand, rewrite the
cached samples of the copy by `g` and the knots of the copy by `f`, return the copy. -/
def SimuTrajectoryRef.transform {R V K : Type} [Zero K]
    (Create : K → K → K → Option (Trajectory (SE3 R V) K)) (g f : SE3 R V → SE3 R V)
    (h : TrajStore (SE3 R V) K) (self : SimuTrajectoryRef R V K) :
    Option (SimuTrajectoryRef R V K × TrajStore (SE3 R V) K) :=
  match SimuTrajectoryRef.copy Create h self with
  | none => none
  | some (newTraj, h1) =>
    let poseSeq := newTraj._poseSeq.map fun item => Posed.FromSE3 (g item.se3) item.timeStamp
    match h1.read newTraj._trajectory with
    | none => none
    | some tr =>
      match SimuTrajectoryRef.knotLoop f tr.NumKnots 0 newTraj._trajectory h1 with
      | none => none
      | some h2 => some (⟨poseSeq, newTraj._hz, newTraj._trajectory⟩, h2)

/-- Source `SimuTrajectory::operator*(const Sophus::SE3d &pose)` on the store. -/
def SimuTrajectoryRef.opMul {R V K : Type} [Zero K] [Mul R] [Add V] [SMul R V]
    (Create : K → K → K → Option (Trajectory (SE3 R V) K)) (h : TrajStore (SE3 R V) K)
    (self : SimuTrajectoryRef R V K) (pose : SE3 R V) :
    Option (SimuTrajectoryRef R V K × TrajStore (SE3 R V) K) :=
  SimuTrajectoryRef.transform Create (fun item => item * pose) (fun curKnot => curKnot * pose)
    h self

/-- Source `SimuTrajectory::operator!()` on the store. -/
def SimuTrajectoryRef.opNot {R V K : Type} [Zero K] [Inv R] [Neg V] [SMul R V]
    (Create : K → K → K → Option (Trajectory (SE3 R V) K)) (h : TrajStore (SE3 R V) K)
    (self : SimuTrajectoryRef R V K) :
    Option (SimuTrajectoryRef R V K × TrajStore (SE3 R V) K) :=
  SimuTrajectoryRef.transform Create (fun item => item⁻¹) (fun curKnot => curKnot⁻¹) h self

/-- The friend `operator*(const Sophus::SE3d &pose, const SimuTrajectory &simuTrajectory)`
on the store. -/
def SimuTrajectoryRef.opMulLeft {R V K : Type} [Zero K] [Mul R] [Add V] [SMul R V]
    (Create : K → K → K → Option (Trajectory (SE3 R V) K)) (h : TrajStore (SE3 R V) K)
    (pose : SE3 R V) (simuTrajectory : SimuTrajectoryRef R V K) :
    Option (SimuTrajectoryRef R V K × TrajStore (SE3 R V) K) :=
  SimuTrajectoryRef.transform Create (fun item => pose * item) (fun curKnot => pose * curKnot)
    h simuTrajectory

/-- The value of a trajectory of the store: its members with the spline read through the
pointer. -/
def SimuTrajectoryRef.value {R V K : Type} (h : TrajStore (SE3 R V) K)
    (s : SimuTrajectoryRef R V K) : Option (SimuTrajectory R V K) :=
  match h.read s._trajectory with
  | none => none
  | some tr => some ⟨s._poseSeq, s._hz, tr⟩

/-- What it means for an operator result to leave its operand `s` alone: if a trajectory
and a store are returned, then in the returned store `s` has the value it had before (same
knots, same cached samples, same rate) and the returned trajectory points to a spline object
other than the one of `s`. -/
def SimuTrajectoryRef.LeavesOperand {R V K : Type} (h : TrajStore (SE3 R V) K)
    (s : SimuTrajectoryRef R V K)
    (result : Option (SimuTrajectoryRef R V K × TrajStore (SE3 R V) K)) : Prop :=
  ∀ (r : SimuTrajectoryRef R V K) (h2 : TrajStore (SE3 R V) K), result = some (r, h2) →
    SimuTrajectoryRef.value h2 s = SimuTrajectoryRef.value h s ∧
    r._trajectory ≠ s._trajectory

/-! ## A worked instance: scalings and translations of the rational line -/

/-- The Lie primitive of the translations of the line inside `SE3 ℚˣ ℚ`: the logarithm reads
the translation, the exponential is the translation by a number. -/
def Example.lieOps : LieOps (SE3 ℚˣ ℚ) ℚ ℚ :=
  ⟨fun x => ⟨1, x⟩, fun g => g.translation, fun w x => w * x⟩

/-- A cumulative basis weight for the worked instance. -/
def Example.lam : Nat → ℚ → ℚ := fun _ u => u

/-- A spline constructor that accepts every argument. -/
def Example.Create : ℚ → ℚ → ℚ → Option (Trajectory (SE3 ℚˣ ℚ) ℚ) :=
  fun dt sTime _ => some ⟨[], dt, sTime⟩

/-- A trajectory with three knots, spacing `1`, start time `0` and two cached samples. -/
def Example.simu : SimuTrajectory ℚˣ ℚ ℚ :=
  ⟨[⟨1, 0, 0⟩, ⟨1, 1, 1⟩], 1, ⟨[⟨1, 0⟩, ⟨1, 1⟩, ⟨1, 3⟩], 1, 0⟩⟩

/-- The scaling by two. -/
def Example.scaling : SE3 ℚˣ ℚ := ⟨Units.mk0 2 two_ne_zero, 0⟩

/-- A stand-in for the spline helper in the worked instance of the gyroscope factor. -/
def Example.EvaluateLie : (Nat → Nat → ℚ) → ℚ → ℚ → Vector3 ℚ :=
  fun knots u dtInv => ![knots 0 0 * dtInv + u, knots 1 0 - u, knots 0 1 * knots 1 1]

/-- Two knot blocks with spacing `1/2`; the timestamp is its own local parameter. -/
def Example.splineMeta : SplineMeta ℚ := ⟨1 / 2, 2, fun t => (0, t)⟩

/-- Parameter blocks: two knot blocks, then a zero bias, the coefficients `(1,1,1,0,0,0)`
and the identity quaternion `(0,0,0,1)`. -/
def Example.sKnots : Nat → Nat → ℚ := fun b i =>
  if b = 2 then 0
  else if b = 3 then (if i < 3 then 1 else 0)
  else if b = 4 then (if i = 3 then 1 else 0)
  else (b : ℚ) + 2 * (i : ℚ) + 1

/-- A gyroscope reading at time `1/4` equal to the angular velocity of the stand-in. -/
def Example.imuFrame : IMUFrame ℚ :=
  ⟨1 / 4, Example.EvaluateLie (fun i => Example.sKnots (0 + i)) (1 / 4) (1 / (1 / 2))⟩

/-- A store holding the spline of the worked instance at address `0`. -/
def Example.store : TrajStore (SE3 ℚˣ ℚ) ℚ := ⟨[Example.simu._trajectory]⟩

/-- The trajectory of the worked instance, with its spline at address `0` of the store. -/
def Example.simuRef : SimuTrajectoryRef ℚˣ ℚ ℚ :=
  ⟨Example.simu._poseSeq, Example.simu._hz, 0⟩

/-- Rotation part of a product. -/
@[simp] theorem SE3.mul_so3 {R V : Type} [Mul R] [Add V] [SMul R V] (a b : SE3 R V) :
    (a * b).so3 = a.so3 * b.so3 := rfl

/-- Translation part of a product. -/
@[simp] theorem SE3.mul_translation {R V : Type} [Mul R] [Add V] [SMul R V] (a b : SE3 R V) :
    (a * b).translation = a.translation + a.so3 • b.translation := rfl

/-- Rotation part of the identity. -/
@[simp] theorem SE3.one_so3 {R V : Type} [One R] [Zero V] : (1 : SE3 R V).so3 = 1 := rfl

/-- Translation part of the identity. -/
@[simp] theorem SE3.one_translation {R V : Type} [One R] [Zero V] :
    (1 : SE3 R V).translation = 0 := rfl

/-- Rotation part of an inverse. -/
@[simp] theorem SE3.inv_so3 {R V : Type} [Inv R] [Neg V] [SMul R V] (a : SE3 R V) :
    (a⁻¹).so3 = a.so3⁻¹ := rfl

/-- Translation part of an inverse. -/
@[simp] theorem SE3.inv_translation {R V : Type} [Inv R] [Neg V] [SMul R V] (a : SE3 R V) :
    (a⁻¹).translation = -(a.so3⁻¹ • a.translation) := rfl

/-- Loop invariant of the knot loop: with the knots before index `pre.length` already
written, enough fuel rewrites the remaining knots by `f` and leaves the rest in place. -/
theorem knotLoop_append {G K : Type} (f : G → G) (fuel : Nat) :
    ∀ (pre post : List G) (tr : Trajectory G K), tr.knots = pre ++ post →
      post.length ≤ fuel →
      SimuTrajectory.knotLoop f fuel pre.length tr
        = some { tr with knots := pre ++ post.map f } := by
  induction fuel with
  | zero =>
    intro pre post tr hk hlen
    have hpost : post = [] := List.length_eq_zero.mp (Nat.le_zero.mp hlen)
    subst hpost
    rcases tr with ⟨knots, dt, st⟩
    simp only [List.append_nil] at hk
    subst hk
    simp [SimuTrajectory.knotLoop, Trajectory.NumKnots]
  | succ fuel ih =>
    intro pre post tr hk hlen
    rcases tr with ⟨knots, dt, st⟩
    simp only at hk
    subst hk
    cases post with
    | nil => simp [SimuTrajectory.knotLoop, Trajectory.NumKnots]
    | cons x xs =>
      have hlt : pre.length < (pre ++ x :: xs).length := by simp
      have hset : (pre ++ x :: xs).set pre.length (f x) = (pre ++ [f x]) ++ xs := by
        simp
      have hnext := ih (pre ++ [f x]) xs ⟨(pre ++ [f x]) ++ xs, dt, st⟩ rfl
        (by simpa using hlen)
      simp only [List.length_append, List.length_singleton] at hnext
      have hget : (pre ++ x :: xs)[pre.length]? = some x := by
        rw [List.getElem?_append_right (le_refl _)]
        simp
      simp only [List.append_assoc, List.singleton_append] at hnext hset
      simp only [SimuTrajectory.knotLoop, Trajectory.NumKnots, Trajectory.GetKnot,
        Trajectory.SetKnot, hlt, if_true, hget, hset, hnext, List.map_cons]

/-- The knot loop, run from index `0` with the knot count as fuel, completes and applies `f`
to every knot. -/
theorem knotLoop_eq_map {G K : Type} (f : G → G) (tr : Trajectory G K) :
    SimuTrajectory.knotLoop f tr.NumKnots 0 tr = some { tr with knots := tr.knots.map f } := by
  have h := knotLoop_append f tr.NumKnots [] tr.knots tr rfl (le_of_eq rfl)
  simpa using h

/-- Left multiplication of every knot by `T` leaves the chain of increments unchanged. -/
theorem chain_map_mul_left {G A K : Type} [Group G] (L : LieOps G A K) (lam : Nat → K → K)
    (u : K) (T : G) (rest : List G) :
    ∀ (j : Nat) (prev : G),
      L.chain lam u j (T * prev) (rest.map fun g => T * g) = L.chain lam u j prev rest := by
  induction rest with
  | nil => intro j prev; rfl
  | cons x xs ih =>
    intro j prev
    simp only [List.map_cons, LieOps.chain, ih]
    rw [mul_inv_rev, mul_assoc, inv_mul_cancel_left]

/-- Right multiplication of every knot by `T` conjugates the chain of increments by `T`. -/
theorem chain_map_mul_right {G A K : Type} [Group G] (L : LieOps G A K) (lam : Nat → K → K)
    (u : K) (T : G)
    (hAd : ∀ (w : K) (d : G),
      L.exp (L.scale w (L.log (T⁻¹ * d * T))) = T⁻¹ * L.exp (L.scale w (L.log d)) * T)
    (rest : List G) :
    ∀ (j : Nat) (prev : G),
      L.chain lam u j (prev * T) (rest.map fun g => g * T)
        = T⁻¹ * L.chain lam u j prev rest * T := by
  induction rest with
  | nil => intro j prev; simp [LieOps.chain]
  | cons x xs ih =>
    intro j prev
    simp only [List.map_cons, LieOps.chain, ih]
    have h : (prev * T)⁻¹ * (x * T) = T⁻¹ * (prev⁻¹ * x) * T := by
      simp [mul_assoc]
    rw [h, hAd]
    simp [mul_assoc]

/-- Blend of a window whose knots are left-multiplied by `T`. -/
theorem Evaluate_map_mul_left {G A K : Type} [Group G] (L : LieOps G A K) (lam : Nat → K → K)
    (Order : Nat) (T : G) (window : List G) (u : K) :
    L.Evaluate lam Order (window.map fun g => T * g) u
      = (L.Evaluate lam Order window u).map fun g => T * g := by
  cases window with
  | nil => rfl
  | cons x xs =>
    simp only [LieOps.Evaluate, List.map_cons, List.length_map, chain_map_mul_left]
    split <;> simp [mul_assoc]

/-- Blend of a window whose knots are right-multiplied by `T`. -/
theorem Evaluate_map_mul_right {G A K : Type} [Group G] (L : LieOps G A K)
    (lam : Nat → K → K) (Order : Nat) (T : G)
    (hAd : ∀ (w : K) (d : G),
      L.exp (L.scale w (L.log (T⁻¹ * d * T))) = T⁻¹ * L.exp (L.scale w (L.log d)) * T)
    (window : List G) (u : K) :
    L.Evaluate lam Order (window.map fun g => g * T) u
      = (L.Evaluate lam Order window u).map fun g => g * T := by
  cases window with
  | nil => rfl
  | cons x xs =>
    simp only [LieOps.Evaluate, List.map_cons, List.length_map,
      chain_map_mul_right L lam u T hAd]
    split <;> simp [mul_assoc]

/-- Evaluation at time `t` commutes with a knot-wise map that commutes with the blend. -/
theorem EvaluateAt_map {G A K : Type} [Group G] [LinearOrderedField K] [FloorRing K]
    (L : LieOps G A K) (lam : Nat → K → K) (Order : Nat) (f : G → G)
    (hf : ∀ (window : List G) (u : K),
      L.Evaluate lam Order (window.map f) u = (L.Evaluate lam Order window u).map f)
    (tr : Trajectory G K) (t : K) :
    Trajectory.EvaluateAt L lam Order { tr with knots := tr.knots.map f } t
      = (Trajectory.EvaluateAt L lam Order tr t).map f := by
  unfold Trajectory.EvaluateAt
  have hidx : Trajectory.ComputeSplineIndex Order { tr with knots := tr.knots.map f } t
      = Trajectory.ComputeSplineIndex Order tr t := by
    simp [Trajectory.ComputeSplineIndex, Trajectory.MinTime, Trajectory.MaxTime,
      Trajectory.NumKnots]
  rw [hidx]
  cases h : Trajectory.ComputeSplineIndex Order tr t with
  | none => rfl
  | some p =>
    obtain ⟨i, u⟩ := p
    simp only [← List.map_drop, ← List.map_take, hf]

/-- Evaluation succeeds at every time of the validity interval of a spline with positive
knot spacing. -/
theorem EvaluateAt_isSome {G A K : Type} [Group G] [LinearOrderedField K] [FloorRing K]
    (L : LieOps G A K) (lam : Nat → K → K) (Order : Nat) (tr : Trajectory G K) (t : K)
    (hdt : 0 < tr.dt) (hmin : tr.MinTime ≤ t) (hmax : t < tr.MaxTime Order) :
    ∃ g, Trajectory.EvaluateAt L lam Order tr t = some g := by
  have hst : 0 ≤ (t - tr.startTime) / tr.dt :=
    div_nonneg (sub_nonneg.mpr hmin) (le_of_lt hdt)
  have hlt : (t - tr.startTime) / tr.dt < (tr.knots.length : K) - (Order : K) := by
    rw [div_lt_iff₀ hdt]
    have := hmax
    simp only [Trajectory.MaxTime, Trajectory.NumKnots] at this
    linarith
  have hOrd : Order ≤ tr.knots.length := by
    by_contra hcon
    have h1 : (tr.knots.length : K) < (Order : K) := by exact_mod_cast Nat.lt_of_not_le hcon
    linarith
  have hfl : ⌊(t - tr.startTime) / tr.dt⌋₊ < tr.knots.length - Order := by
    rw [Nat.floor_lt hst, Nat.cast_sub hOrd]
    exact hlt
  simp only [Trajectory.EvaluateAt, Trajectory.ComputeSplineIndex, hmin, hmax, and_self,
    if_true]
  generalize ⌊(t - tr.startTime) / tr.dt⌋₊ = i at hfl
  have hlen : ((tr.knots.drop i).take (Order + 1)).length = Order + 1 := by
    simp only [List.length_take, List.length_drop]
    omega
  cases hw : (tr.knots.drop i).take (Order + 1) with
  | nil => rw [hw] at hlen; simp at hlen
  | cons x xs =>
    rw [hw] at hlen
    have hxs : xs.length = Order := by simpa using hlen
    refine ⟨x * L.chain lam ((t - tr.startTime) / tr.dt - (i : K)) 1 x xs, ?_⟩
    simp only [LieOps.Evaluate, hxs, if_true]

/-! ## Lemmas on the transform operators -/

/-- When the spline constructor accepts the arguments of the copy constructor, the copy is
the operand itself. -/
theorem SimuTrajectory.copy_of_created {R V K : Type} [Zero K]
    (Create : K → K → K → Option (Trajectory (SE3 R V) K)) (created : Trajectory (SE3 R V) K)
    (hCreate : Create 0 0 0 = some created) (s : SimuTrajectory R V K) :
    SimuTrajectory.copy Create s = some s := by
  simp only [SimuTrajectory.copy, hCreate]

/-- Result of `self * pose` once the copy is made. -/
theorem SimuTrajectory.opMul_of_created {R V K : Type} [Zero K] [Mul R] [Add V] [SMul R V]
    (Create : K → K → K → Option (Trajectory (SE3 R V) K)) (created : Trajectory (SE3 R V) K)
    (hCreate : Create 0 0 0 = some created) (s : SimuTrajectory R V K) (T : SE3 R V) :
    SimuTrajectory.opMul Create s T
      = some ⟨s._poseSeq.map fun item => Posed.FromSE3 (item.se3 * T) item.timeStamp, s._hz,
          { s._trajectory with knots := s._trajectory.knots.map fun g => g * T }⟩ := by
  simp only [SimuTrajectory.opMul, SimuTrajectory.copy_of_created Create created hCreate,
    knotLoop_eq_map]

/-- Result of `pose * simuTrajectory` once the copy is made. -/
theorem SimuTrajectory.opMulLeft_of_created {R V K : Type} [Zero K] [Mul R] [Add V]
    [SMul R V] (Create : K → K → K → Option (Trajectory (SE3 R V) K))
    (created : Trajectory (SE3 R V) K) (hCreate : Create 0 0 0 = some created)
    (T : SE3 R V) (s : SimuTrajectory R V K) :
    SimuTrajectory.opMulLeft Create T s
      = some ⟨s._poseSeq.map fun item => Posed.FromSE3 (T * item.se3) item.timeStamp, s._hz,
          { s._trajectory with knots := s._trajectory.knots.map fun g => T * g }⟩ := by
  simp only [SimuTrajectory.opMulLeft, SimuTrajectory.copy_of_created Create created hCreate,
    knotLoop_eq_map]

/-- Result of `!self` once the copy is made. -/
theorem SimuTrajectory.opNot_of_created {R V K : Type} [Zero K] [Inv R] [Neg V] [SMul R V]
    (Create : K → K → K → Option (Trajectory (SE3 R V) K)) (created : Trajectory (SE3 R V) K)
    (hCreate : Create 0 0 0 = some created) (s : SimuTrajectory R V K) :
    SimuTrajectory.opNot Create s
      = some ⟨s._poseSeq.map fun item => Posed.FromSE3 (item.se3)⁻¹ item.timeStamp, s._hz,
          { s._trajectory with knots := s._trajectory.knots.map fun g => g⁻¹ }⟩ := by
  simp only [SimuTrajectory.opNot, SimuTrajectory.copy_of_created Create created hCreate,
    knotLoop_eq_map]

/-- Conjugation by the scaling commutes with the exponential of a weighted logarithm in the
worked instance. -/
theorem Example.lieOps_conj (w : ℚ) (d : SE3 ℚˣ ℚ) :
    Example.lieOps.exp (Example.lieOps.scale w
        (Example.lieOps.log (Example.scaling⁻¹ * d * Example.scaling)))
      = Example.scaling⁻¹ * Example.lieOps.exp (Example.lieOps.scale w (Example.lieOps.log d))
          * Example.scaling := by
  ext
  · simp [Example.lieOps, Example.scaling]
  · simp [Example.lieOps, Example.scaling, Units.smul_def]
    ring

/-! ## Lemmas on the gyroscope factor -/

/-- The matrix built by the factor, written out. -/
theorem IMUGyroFactor.gyroMapMat_eq {K : Type} [Zero K] (c : Nat → K) :
    IMUGyroFactor.gyroMapMat c = !![c 0, c 3, c 4; 0, c 1, c 5; 0, 0, c 2] := by
  ext i j
  fin_cases i <;> fin_cases j <;> rfl

/-- The identity quaternion `(0, 0, 0, 1)` leaves every vector in place. -/
theorem SO3.act_identity {K : Type} [CommRing K] (q : Nat → K) (p : Vector3 K)
    (h0 : q 0 = 0) (h1 : q 1 = 0) (h2 : q 2 = 0) (h3 : q 3 = 1) : SO3.act q p = p := by
  ext i
  fin_cases i <;> simp [SO3.act, Vector3.cross, h0, h1, h2, h3] <;> rfl

/-! ## Lemmas on the frames of the generators -/

/-- A vector of positive squared norm is divided by its norm. -/
theorem Vector3.normalized_of_pos {K : Type} [LinearOrderedField K] (sqrt : K → K)
    (v : Vector3 K) (h : 0 < Vector3.squaredNorm v) :
    Vector3.normalized sqrt v = fun i => v i / sqrt (Vector3.squaredNorm v) := by
  simp only [Vector3.normalized, h, if_true]

/-- A vector whose squared norm is not positive is returned unchanged. -/
theorem Vector3.normalized_of_not_pos {K : Type} [LinearOrderedField K] (sqrt : K → K)
    (v : Vector3 K) (h : ¬ 0 < Vector3.squaredNorm v) : Vector3.normalized sqrt v = v := by
  simp only [Vector3.normalized, h, if_false]

/-- The frame with tangent `(-s, c, 0)` and inward radial direction `(-c e, -s e, -f)` is a
proper rotation when `(c, s)` and `(e, f)` are unit pairs. -/
theorem Matrix3.radial_frame_proper {K : Type} [Field K] (c s e f : K)
    (h1 : c * c + s * s = 1) (h2 : e * e + f * f = 1) :
    Matrix3.IsProperRotation !![-s, -(c * e), -(c * f); c, -(s * e), -(s * f); 0, -f, e] := by
  constructor
  · ext i j
    simp only [Matrix.mul_apply, Matrix.transpose_apply, Fin.sum_univ_three]
    fin_cases i <;> fin_cases j <;> simp
    · linear_combination h1
    · ring
    · ring
    · ring
    · linear_combination (e * e) * h1 + h2
    · linear_combination (e * f) * h1
    · ring
    · linear_combination (e * f) * h1
    · linear_combination (f * f) * h1 + h2
  · rw [Matrix.det_fin_three]
    simp
    linear_combination (e * e + f * f) * h1 + h2

/-- The frame built by the circular, spiral and wave generators at a position with a
non-zero horizontal part. -/
theorem Posed.radial_frame (p : Vector3 ℝ) (t : ℝ) (hp : 0 < p 0 * p 0 + p 1 * p 1) :
    Posed.IsRadialFrame Real.sqrt
      (⟨Matrix3.ofCols (Vector3.normalized Real.sqrt ![-p 1, p 0, 0])
          (-Vector3.normalized Real.sqrt p)
          (Vector3.cross (Vector3.normalized Real.sqrt ![-p 1, p 0, 0])
            (-Vector3.normalized Real.sqrt p)), p, t⟩ :
        Posed (Matrix3 ℝ) (Vector3 ℝ) ℝ) := by
  have hsq : Vector3.squaredNorm (![-p 1, p 0, 0] : Vector3 ℝ) = p 0 * p 0 + p 1 * p 1 := by
    simp [Vector3.squaredNorm]
    ring
  have hx0 : 0 < Vector3.squaredNorm (![-p 1, p 0, 0] : Vector3 ℝ) := by rw [hsq]; exact hp
  have hn0 : 0 < Vector3.squaredNorm p := by
    have : 0 ≤ p 2 * p 2 := mul_self_nonneg _
    simp only [Vector3.squaredNorm]
    linarith
  rw [Vector3.normalized_of_pos Real.sqrt _ hx0, Vector3.normalized_of_pos Real.sqrt _ hn0, hsq]
  set a : ℝ := Real.sqrt (p 0 * p 0 + p 1 * p 1) with ha_def
  set n : ℝ := Real.sqrt (Vector3.squaredNorm p) with hn_def
  have ha : a * a = p 0 * p 0 + p 1 * p 1 := Real.mul_self_sqrt (le_of_lt hp)
  have hn : n * n = p 0 * p 0 + p 1 * p 1 + p 2 * p 2 := Real.mul_self_sqrt (le_of_lt hn0)
  have hapos : a ≠ 0 := ne_of_gt (Real.sqrt_pos.mpr hp)
  have hnpos : n ≠ 0 := ne_of_gt (Real.sqrt_pos.mpr hn0)
  have h1 : p 0 / a * (p 0 / a) + p 1 / a * (p 1 / a) = 1 := by
    field_simp
    linarith
  have h2 : a / n * (a / n) + p 2 / n * (p 2 / n) = 1 := by
    field_simp
    linarith
  have hM : Matrix3.ofCols (fun i => (![-p 1, p 0, 0] : Vector3 ℝ) i / a) (-fun i => p i / n)
      (Vector3.cross (fun i => (![-p 1, p 0, 0] : Vector3 ℝ) i / a) (-fun i => p i / n))
      = !![-(p 1 / a), -(p 0 / a * (a / n)), -(p 0 / a * (p 2 / n));
          p 0 / a, -(p 1 / a * (a / n)), -(p 1 / a * (p 2 / n));
          0, -(p 2 / n), a / n] := by
    ext i j
    fin_cases i <;> fin_cases j <;> simp [Matrix3.ofCols, Vector3.cross]
    all_goals field_simp
    ring_nf
    linear_combination (-n) * ha
  refine ⟨?_, ?_, ?_, ?_⟩
  · simp only [hM]
    exact Matrix3.radial_frame_proper _ _ _ _ h1 h2
  · simp [Matrix3.ofCols]
    ring
  · intro i
    simp only [Vector3.norm, ← hn_def]
    fin_cases i <;> simp [Matrix3.ofCols]
  · intro i
    fin_cases i <;> simp [Matrix3.ofCols, Vector3.cross]

/-- The frame with travel direction `(c e, s e, f)` and horizontal normal `(-s, c, 0)` is a
proper rotation when `(c, s)` and `(e, f)` are unit pairs. -/
theorem Matrix3.travel_frame_proper {K : Type} [Field K] (c s e f : K)
    (h1 : c * c + s * s = 1) (h2 : e * e + f * f = 1) :
    Matrix3.IsProperRotation !![c * e, -s, -(f * c); s * e, c, -(f * s); f, 0, e] := by
  constructor
  · ext i j
    simp only [Matrix.mul_apply, Matrix.transpose_apply, Fin.sum_univ_three]
    fin_cases i <;> fin_cases j <;> simp
    · linear_combination (e * e) * h1 + h2
    · ring
    · linear_combination (-(e * f)) * h1
    · ring
    · linear_combination h1
    · ring
    · linear_combination (-(e * f)) * h1
    · ring
    · linear_combination (f * f) * h1 + h2
  · rw [Matrix.det_fin_three]
    simp
    linear_combination (e * e + f * f) * h1 + h2

/-- A non-zero vector has a positive squared norm. -/
theorem Vector3.squaredNorm_pos {K : Type} [LinearOrderedField K] (d : Vector3 K)
    (hd : d ≠ 0) : 0 < Vector3.squaredNorm d := by
  have h0 : 0 ≤ d 0 * d 0 := mul_self_nonneg _
  have h1 : 0 ≤ d 1 * d 1 := mul_self_nonneg _
  have h2 : 0 ≤ d 2 * d 2 := mul_self_nonneg _
  rcases lt_or_eq_of_le (add_nonneg (add_nonneg h0 h1) h2) with h | h
  · exact h
  · exfalso
    apply hd
    have e0 : d 0 * d 0 = 0 := by linarith
    have e1 : d 1 * d 1 = 0 := by linarith
    have e2 : d 2 * d 2 = 0 := by linarith
    ext i
    fin_cases i
    · exact mul_self_eq_zero.mp e0
    · exact mul_self_eq_zero.mp e1
    · exact mul_self_eq_zero.mp e2

/-- The frame built by the linear and uniformly accelerated generators for a non-zero
travel vector `d = to - from`. -/
theorem Matrix3.travel_frame (d : Vector3 ℝ) (hd : d ≠ 0) :
    (∀ i : Fin 3,
      Matrix3.ofCols (Vector3.normalized Real.sqrt d)
        (Vector3.normalized Real.sqrt
          ![-Vector3.normalized Real.sqrt d 1, Vector3.normalized Real.sqrt d 0, 0])
        (Vector3.cross (Vector3.normalized Real.sqrt d)
          (Vector3.normalized Real.sqrt
            ![-Vector3.normalized Real.sqrt d 1, Vector3.normalized Real.sqrt d 0, 0])) i 0
        = d i / Vector3.norm Real.sqrt d) ∧
    (Matrix3.IsProperRotation
        (Matrix3.ofCols (Vector3.normalized Real.sqrt d)
          (Vector3.normalized Real.sqrt
            ![-Vector3.normalized Real.sqrt d 1, Vector3.normalized Real.sqrt d 0, 0])
          (Vector3.cross (Vector3.normalized Real.sqrt d)
            (Vector3.normalized Real.sqrt
              ![-Vector3.normalized Real.sqrt d 1, Vector3.normalized Real.sqrt d 0, 0])))
      ↔ (d 0 ≠ 0 ∨ d 1 ≠ 0)) ∧
    (d 0 = 0 ∧ d 1 = 0 →
      ∀ i : Fin 3,
        Matrix3.ofCols (Vector3.normalized Real.sqrt d)
          (Vector3.normalized Real.sqrt
            ![-Vector3.normalized Real.sqrt d 1, Vector3.normalized Real.sqrt d 0, 0])
          (Vector3.cross (Vector3.normalized Real.sqrt d)
            (Vector3.normalized Real.sqrt
              ![-Vector3.normalized Real.sqrt d 1, Vector3.normalized Real.sqrt d 0, 0])) i 1
          = 0 ∧
        Matrix3.ofCols (Vector3.normalized Real.sqrt d)
          (Vector3.normalized Real.sqrt
            ![-Vector3.normalized Real.sqrt d 1, Vector3.normalized Real.sqrt d 0, 0])
          (Vector3.cross (Vector3.normalized Real.sqrt d)
            (Vector3.normalized Real.sqrt
              ![-Vector3.normalized Real.sqrt d 1, Vector3.normalized Real.sqrt d 0, 0])) i 2
          = 0) := by
  have hN0 := Vector3.squaredNorm_pos d hd
  rw [Vector3.normalized_of_pos Real.sqrt d hN0]
  set N : ℝ := Real.sqrt (Vector3.squaredNorm d) with hN_def
  have hN : N * N = d 0 * d 0 + d 1 * d 1 + d 2 * d 2 := Real.mul_self_sqrt (le_of_lt hN0)
  have hNne : N ≠ 0 := ne_of_gt (Real.sqrt_pos.mpr hN0)
  have hsq : Vector3.squaredNorm (![-(d 1 / N), d 0 / N, 0] : Vector3 ℝ)
      = d 0 / N * (d 0 / N) + d 1 / N * (d 1 / N) := by
    simp [Vector3.squaredNorm]
    ring
  have hvert : d 0 = 0 ∧ d 1 = 0 →
      Vector3.normalized Real.sqrt (![-(d 1 / N), d 0 / N, 0] : Vector3 ℝ) = 0 := by
    rintro ⟨h0, h1⟩
    have hnp : ¬ 0 < Vector3.squaredNorm (![-(d 1 / N), d 0 / N, 0] : Vector3 ℝ) := by
      rw [hsq, h0, h1]
      simp
    rw [Vector3.normalized_of_not_pos Real.sqrt _ hnp, h0, h1]
    ext i
    fin_cases i <;> simp [Matrix.vecHead, Matrix.vecTail]
  have hzero : d 0 = 0 ∧ d 1 = 0 →
      ∀ i : Fin 3,
        Matrix3.ofCols (fun i => d i / N)
          (Vector3.normalized Real.sqrt ![-(d 1 / N), d 0 / N, 0])
          (Vector3.cross (fun i => d i / N)
            (Vector3.normalized Real.sqrt ![-(d 1 / N), d 0 / N, 0])) i 1 = 0 ∧
        Matrix3.ofCols (fun i => d i / N)
          (Vector3.normalized Real.sqrt ![-(d 1 / N), d 0 / N, 0])
          (Vector3.cross (fun i => d i / N)
            (Vector3.normalized Real.sqrt ![-(d 1 / N), d 0 / N, 0])) i 2 = 0 := by
    intro hv i
    rw [hvert hv]
    fin_cases i <;> simp [Matrix3.ofCols, Vector3.cross, Matrix.vecHead, Matrix.vecTail]
  refine ⟨?_, ?_, hzero⟩
  · intro i
    simp only [Vector3.norm, ← hN_def]
    fin_cases i <;> simp [Matrix3.ofCols]
  · constructor
    · intro hrot
      by_contra hcon
      have hv : d 0 = 0 ∧ d 1 = 0 := by
        constructor
        · by_contra h
          exact hcon (Or.inl h)
        · by_contra h
          exact hcon (Or.inr h)
      have h11 := congrFun (congrFun hrot.1 1) 1
      simp only [Matrix.mul_apply, Matrix.transpose_apply, Fin.sum_univ_three,
        (hzero hv 0).1, (hzero hv 1).1, (hzero hv 2).1] at h11
      simp at h11
    · intro hh
      have hpos : 0 < d 0 / N * (d 0 / N) + d 1 / N * (d 1 / N) := by
        have e0 : 0 ≤ d 0 / N * (d 0 / N) := mul_self_nonneg _
        have e1 : 0 ≤ d 1 / N * (d 1 / N) := mul_self_nonneg _
        rcases hh with h | h
        · have : 0 < d 0 / N * (d 0 / N) := mul_self_pos.mpr (div_ne_zero h hNne)
          linarith
        · have : 0 < d 1 / N * (d 1 / N) := mul_self_pos.mpr (div_ne_zero h hNne)
          linarith
      have hw0 : 0 < Vector3.squaredNorm (![-(d 1 / N), d 0 / N, 0] : Vector3 ℝ) := by
        rw [hsq]
        exact hpos
      rw [Vector3.normalized_of_pos Real.sqrt _ hw0, hsq]
      set H : ℝ := Real.sqrt (d 0 / N * (d 0 / N) + d 1 / N * (d 1 / N)) with hH_def
      have hH : H * H = d 0 / N * (d 0 / N) + d 1 / N * (d 1 / N) :=
        Real.mul_self_sqrt (le_of_lt hpos)
      have hHne : H ≠ 0 := ne_of_gt (Real.sqrt_pos.mpr hpos)
      have h1 : d 0 / N / H * (d 0 / N / H) + d 1 / N / H * (d 1 / N / H) = 1 := by
        rw [div_mul_div_comm (d 0 / N) H, div_mul_div_comm (d 1 / N) H, ← add_div, hH]
        exact div_self (ne_of_gt hpos)
      have h2 : H * H + d 2 / N * (d 2 / N) = 1 := by
        rw [hH]
        field_simp
        linarith
      have hM : Matrix3.ofCols (fun i => d i / N)
          (fun i => (![-(d 1 / N), d 0 / N, 0] : Vector3 ℝ) i / H)
          (Vector3.cross (fun i => d i / N)
            (fun i => (![-(d 1 / N), d 0 / N, 0] : Vector3 ℝ) i / H))
          = !![d 0 / N / H * H, -(d 1 / N / H), -(d 2 / N * (d 0 / N / H));
              d 1 / N / H * H, d 0 / N / H, -(d 2 / N * (d 1 / N / H));
              d 2 / N, 0, H] := by
        ext i j
        fin_cases i <;> fin_cases j <;> simp [Matrix3.ofCols, Vector3.cross]
        all_goals field_simp
        all_goals ring_nf
        have hHN : H * H * (N * N) = d 0 * d 0 + d 1 * d 1 := by
          rw [hH]
          field_simp
        linear_combination (-1 : ℝ) * hHN
      rw [hM]
      exact Matrix3.travel_frame_proper _ _ _ _ h1 h2

/-! ## Lemmas on the sampling loop -/

/-- A successful read is at an allocated address. -/
theorem TrajStore.lt_of_read {G K : Type} (h : TrajStore G K) (p : Nat) (tr : Trajectory G K)
    (hr : h.read p = some tr) : p < h.cells.length := by
  simp only [TrajStore.read] at hr
  exact (List.getElem?_eq_some.mp hr).1

/-- A write at an allocated address succeeds; the written value is read back, the other
addresses keep their values. -/
theorem TrajStore.write_spec {G K : Type} (h : TrajStore G K) (p : Nat) (tr : Trajectory G K)
    (hp : p < h.cells.length) :
    ∃ h1, h.write p tr = some h1 ∧ h1.read p = some tr ∧
      ∀ a : Nat, a ≠ p → h1.read a = h.read a := by
  refine ⟨⟨h.cells.set p tr⟩, by simp [TrajStore.write, hp], ?_, ?_⟩
  · simp [TrajStore.read, hp]
  · intro a ha
    simp [TrajStore.read, List.getElem?_set_ne (Ne.symm ha)]

/-- Allocation keeps the values at the addresses in use and returns an address not in use. -/
theorem TrajStore.alloc_spec {G K : Type} (h : TrajStore G K) (tr : Trajectory G K) :
    (h.alloc tr).1 = h.cells.length ∧ (h.alloc tr).2.read (h.alloc tr).1 = some tr ∧
      ∀ (a : Nat) (v : Trajectory G K), h.read a = some v → (h.alloc tr).2.read a = some v := by
  refine ⟨rfl, by simp [TrajStore.alloc, TrajStore.read], ?_⟩
  intro a v hv
  have ha := TrajStore.lt_of_read h a v hv
  simp only [TrajStore.read] at hv
  simp [TrajStore.alloc, TrajStore.read, List.getElem?_append_left ha, hv]

/-- The knot loop on the store follows the knot loop on the spline it points to: it ends
with the rewritten spline at `p` and leaves every other address as it was. -/
theorem SimuTrajectoryRef.knotLoop_spec {G K : Type} (f : G → G) (fuel : Nat) :
    ∀ (i p : Nat) (h : TrajStore G K) (tr tr2 : Trajectory G K), h.read p = some tr →
      SimuTrajectory.knotLoop f fuel i tr = some tr2 →
      ∃ h2, SimuTrajectoryRef.knotLoop f fuel i p h = some h2 ∧ h2.read p = some tr2 ∧
        ∀ a : Nat, a ≠ p → h2.read a = h.read a := by
  induction fuel with
  | zero =>
    intro i p h tr tr2 hr hloop
    by_cases hi : i < tr.NumKnots
    · simp [SimuTrajectory.knotLoop, hi] at hloop
    · simp only [SimuTrajectory.knotLoop, hi, if_false, Option.some.injEq] at hloop
      subst hloop
      exact ⟨h, by simp [SimuTrajectoryRef.knotLoop, hr, hi], hr, fun _ _ => rfl⟩
  | succ fuel ih =>
    intro i p h tr tr2 hr hloop
    by_cases hi : i < tr.NumKnots
    · simp only [SimuTrajectory.knotLoop, hi, if_true] at hloop
      cases hget : tr.GetKnot i with
      | none => simp [hget] at hloop
      | some curKnot =>
        simp only [hget] at hloop
        cases hset : tr.SetKnot (f curKnot) i with
        | none => simp [hset] at hloop
        | some tr1 =>
          simp only [hset] at hloop
          obtain ⟨h1, hw, hr1, hframe1⟩ :=
            TrajStore.write_spec h p tr1 (TrajStore.lt_of_read h p tr hr)
          obtain ⟨h2, hrun, hr2, hframe2⟩ := ih (i + 1) p h1 tr1 tr2 hr1 hloop
          refine ⟨h2, ?_, hr2, fun a ha => by rw [hframe2 a ha, hframe1 a ha]⟩
          simp only [SimuTrajectoryRef.knotLoop, hr, hi, if_true, hget, hset, hw, hrun]
    · simp only [SimuTrajectory.knotLoop, hi, if_false, Option.some.injEq] at hloop
      subst hloop
      exact ⟨h, by simp [SimuTrajectoryRef.knotLoop, hr, hi], hr, fun _ _ => rfl⟩

/-- The shared body of the operators on the store, once the copy constructor's spline is
constructed: the result points to a new spline object holding the rewritten knots, and the
spline of the operand is as before. -/
theorem SimuTrajectoryRef.transform_spec {R V K : Type} [Zero K]
    (Create : K → K → K → Option (Trajectory (SE3 R V) K)) (created : Trajectory (SE3 R V) K)
    (hCreate : Create 0 0 0 = some created) (g f : SE3 R V → SE3 R V)
    (h : TrajStore (SE3 R V) K) (s : SimuTrajectoryRef R V K) (v : Trajectory (SE3 R V) K)
    (hv : h.read s._trajectory = some v) :
    ∃ h2, SimuTrajectoryRef.transform Create g f h s
        = some (⟨s._poseSeq.map fun item => Posed.FromSE3 (g item.se3) item.timeStamp, s._hz,
            h.cells.length⟩, h2) ∧
      h2.read h.cells.length = some { v with knots := v.knots.map f } ∧
      ∀ (a : Nat) (w : Trajectory (SE3 R V) K), h.read a = some w → h2.read a = some w := by
  obtain ⟨hp, hnew, hold⟩ := TrajStore.alloc_spec h created
  have hlt : (h.alloc created).1 < (h.alloc created).2.cells.length :=
    TrajStore.lt_of_read _ _ _ hnew
  obtain ⟨h1, hw, hr1, hframe1⟩ := TrajStore.write_spec (h.alloc created).2 (h.alloc created).1
    v hlt
  obtain ⟨h2, hrun, hr2, hframe2⟩ := SimuTrajectoryRef.knotLoop_spec f v.NumKnots 0
    (h.alloc created).1 h1 v _ hr1 (knotLoop_eq_map f v)
  refine ⟨h2, ?_, ?_, ?_⟩
  · rw [hp] at hw hr1 hrun
    simp only [SimuTrajectoryRef.transform, SimuTrajectoryRef.copy, hCreate, hold _ _ hv, hp,
      hw, hr1, hrun]
  · rw [← hp]
    exact hr2
  · intro a w hw2
    have ha : a ≠ (h.alloc created).1 := by
      rw [hp]
      exact ne_of_lt (TrajStore.lt_of_read h a w hw2)
    rw [hframe2 a ha, hframe1 a ha]
    exact hold a w hw2

/-- The shared body of the operators leaves its operand alone, whatever the spline
constructor does. -/
theorem SimuTrajectoryRef.transform_leavesOperand {R V K : Type} [Zero K]
    (Create : K → K → K → Option (Trajectory (SE3 R V) K)) (g f : SE3 R V → SE3 R V)
    (h : TrajStore (SE3 R V) K) (s : SimuTrajectoryRef R V K) (v : Trajectory (SE3 R V) K)
    (hv : h.read s._trajectory = some v) :
    SimuTrajectoryRef.LeavesOperand h s (SimuTrajectoryRef.transform Create g f h s) := by
  intro r h2 hres
  cases hC : Create 0 0 0 with
  | none => simp [SimuTrajectoryRef.transform, SimuTrajectoryRef.copy, hC] at hres
  | some created =>
    obtain ⟨h3, hrun, _, hold⟩ :=
      SimuTrajectoryRef.transform_spec Create created hC g f h s v hv
    rw [hrun] at hres
    simp only [Option.some.injEq, Prod.mk.injEq] at hres
    obtain ⟨hr, hh⟩ := hres
    subst hr hh
    constructor
    · simp only [SimuTrajectoryRef.value, hold _ _ hv, hv]
    · exact (ne_of_lt (TrajStore.lt_of_read h _ v hv)).symm

/-- The shared body of the operators returns, once the copy constructor's spline is
constructed, a trajectory whose value is given by the rewritten samples and knots. -/
theorem SimuTrajectoryRef.transform_value {R V K : Type} [Zero K]
    (Create : K → K → K → Option (Trajectory (SE3 R V) K)) (created : Trajectory (SE3 R V) K)
    (hCreate : Create 0 0 0 = some created) (g f : SE3 R V → SE3 R V)
    (h : TrajStore (SE3 R V) K) (s : SimuTrajectoryRef R V K) (v : Trajectory (SE3 R V) K)
    (hv : h.read s._trajectory = some v) :
    ∃ r h2, SimuTrajectoryRef.transform Create g f h s = some (r, h2) ∧
      SimuTrajectoryRef.value h2 r
        = some ⟨s._poseSeq.map fun item => Posed.FromSE3 (g item.se3) item.timeStamp, s._hz,
            { v with knots := v.knots.map f }⟩ := by
  obtain ⟨h2, hrun, hnew, _⟩ := SimuTrajectoryRef.transform_spec Create created hCreate g f h s v hv
  exact ⟨_, h2, hrun, by simp only [SimuTrajectoryRef.value, hnew]⟩

/-! ## Claims -/

/-- C1: for a trajectory `s`, a rigid transform `T` and a valid time `t` in
`[MinTime, MaxTime)`, the spline of `s` evaluates to some pose `g`, the spline of `T * s`
evaluates to `T * g` and the spline of `s * T` evaluates to `g * T`. Evaluation is the
cumulative blend of the specification; the copy constructor's spline is taken to be
constructed, the knot spacing is positive, and the exponential of a weighted logarithm
commutes with conjugation by `T`. -/
theorem C1_transformed_spline_evaluation {R V A K : Type} [Group R] [AddCommGroup V]
    [DistribMulAction R V] [LinearOrderedField K] [FloorRing K]
    (L : LieOps (SE3 R V) A K) (lam : Nat → K → K) (Order : Nat)
    (Create : K → K → K → Option (Trajectory (SE3 R V) K)) (created : Trajectory (SE3 R V) K)
    (s : SimuTrajectory R V K) (T : SE3 R V) (t : K)
    (hCreate : Create 0 0 0 = some created)
    (hdt : 0 < s._trajectory.dt)
    (hmin : s._trajectory.MinTime ≤ t) (hmax : t < s._trajectory.MaxTime Order)
    (hAd : ∀ (w : K) (d : SE3 R V),
      L.exp (L.scale w (L.log (T⁻¹ * d * T))) = T⁻¹ * L.exp (L.scale w (L.log d)) * T) :
    ∃ (g : SE3 R V) (l r : SimuTrajectory R V K),
      Trajectory.EvaluateAt L lam Order s._trajectory t = some g ∧
      SimuTrajectory.opMulLeft Create T s = some l ∧
      Trajectory.EvaluateAt L lam Order l._trajectory t = some (T * g) ∧
      SimuTrajectory.opMul Create s T = some r ∧
      Trajectory.EvaluateAt L lam Order r._trajectory t = some (g * T) := by
  obtain ⟨g, hg⟩ := EvaluateAt_isSome L lam Order s._trajectory t hdt hmin hmax
  refine ⟨g, _, _, hg, SimuTrajectory.opMulLeft_of_created Create created hCreate T s, ?_,
    SimuTrajectory.opMul_of_created Create created hCreate s T, ?_⟩
  · rw [EvaluateAt_map L lam Order (fun g => T * g)
      (fun window u => Evaluate_map_mul_left L lam Order T window u), hg]
    rfl
  · rw [EvaluateAt_map L lam Order (fun g => g * T)
      (fun window u => Evaluate_map_mul_right L lam Order T hAd window u), hg]
    rfl

/-- C1 at the worked instance: time `1/2` of the three-knot trajectory and the scaling. -/
theorem C1_transformed_spline_evaluation_witness :
    (Example.Create 0 0 0 = some ⟨[], 0, 0⟩ ∧ 0 < Example.simu._trajectory.dt ∧
      Example.simu._trajectory.MinTime ≤ 1 / 2 ∧
      1 / 2 < Example.simu._trajectory.MaxTime 1 ∧
      ∀ (w : ℚ) (d : SE3 ℚˣ ℚ),
        Example.lieOps.exp (Example.lieOps.scale w
            (Example.lieOps.log (Example.scaling⁻¹ * d * Example.scaling)))
          = Example.scaling⁻¹
              * Example.lieOps.exp (Example.lieOps.scale w (Example.lieOps.log d))
              * Example.scaling) ∧
    ∃ (g : SE3 ℚˣ ℚ) (l r : SimuTrajectory ℚˣ ℚ ℚ),
      Trajectory.EvaluateAt Example.lieOps Example.lam 1 Example.simu._trajectory (1 / 2)
        = some g ∧
      SimuTrajectory.opMulLeft Example.Create Example.scaling Example.simu = some l ∧
      Trajectory.EvaluateAt Example.lieOps Example.lam 1 l._trajectory (1 / 2)
        = some (Example.scaling * g) ∧
      SimuTrajectory.opMul Example.Create Example.simu Example.scaling = some r ∧
      Trajectory.EvaluateAt Example.lieOps Example.lam 1 r._trajectory (1 / 2)
        = some (g * Example.scaling) :=
  have h1 : Example.Create 0 0 0 = some ⟨[], 0, 0⟩ := rfl
  have h2 : 0 < Example.simu._trajectory.dt := by
    simp [Example.simu]
  have h3 : Example.simu._trajectory.MinTime ≤ 1 / 2 := by
    simp [Example.simu, Trajectory.MinTime]
  have h4 : 1 / 2 < Example.simu._trajectory.MaxTime 1 := by
    simp [Example.simu, Trajectory.MaxTime, Trajectory.NumKnots]
    norm_num
  ⟨⟨h1, h2, h3, h4, Example.lieOps_conj⟩,
    C1_transformed_spline_evaluation Example.lieOps Example.lam 1 Example.Create ⟨[], 0, 0⟩
      Example.simu Example.scaling (1 / 2) h1 h2 h3 h4 Example.lieOps_conj⟩

/-- C2: double inversion is a round trip. When the copy constructor's spline is taken to
be constructed, `!!s` is produced, knot `i` of `!!s` is knot `i` of `s` for every `i`, the
cached pose samples are those of `s`, and the spline of `!!s` evaluates as the spline of `s`
at every sampled time. -/
theorem C2_double_inversion_round_trip {R V A K : Type} [Group R] [AddCommGroup V]
    [DistribMulAction R V] [LinearOrderedField K] [FloorRing K]
    (L : LieOps (SE3 R V) A K) (lam : Nat → K → K) (Order : Nat)
    (Create : K → K → K → Option (Trajectory (SE3 R V) K)) (created : Trajectory (SE3 R V) K)
    (s : SimuTrajectory R V K) (hCreate : Create 0 0 0 = some created) :
    ∃ r : SimuTrajectory R V K,
      (SimuTrajectory.opNot Create s).bind (SimuTrajectory.opNot Create) = some r ∧
      r._trajectory.NumKnots = s._trajectory.NumKnots ∧
      (∀ i : Nat, r._trajectory.GetKnot i = s._trajectory.GetKnot i) ∧
      r._poseSeq = s._poseSeq ∧
      ∀ p ∈ s._poseSeq,
        Trajectory.EvaluateAt L lam Order r._trajectory p.timeStamp
          = Trajectory.EvaluateAt L lam Order s._trajectory p.timeStamp := by
  have hround : (SimuTrajectory.opNot Create s).bind (SimuTrajectory.opNot Create)
      = some s := by
    rw [SimuTrajectory.opNot_of_created Create created hCreate, Option.some_bind,
      SimuTrajectory.opNot_of_created Create created hCreate]
    rcases s with ⟨poseSeq, hz, knots, dt, st⟩
    simp only [List.map_map, Option.some.injEq, SimuTrajectory.mk.injEq,
      Trajectory.mk.injEq, and_true, true_and]
    constructor
    · conv_rhs => rw [← List.map_id poseSeq]
      apply List.map_congr_left
      intro p _
      simp [Posed.FromSE3, Posed.se3]
    · conv_rhs => rw [← List.map_id knots]
      apply List.map_congr_left
      intro g _
      simp
  exact ⟨s, hround, rfl, fun _ => rfl, rfl, fun _ _ => rfl⟩

/-- C2 at the worked instance. -/
theorem C2_double_inversion_round_trip_witness :
    Example.Create 0 0 0 = some ⟨[], 0, 0⟩ ∧
    ∃ r : SimuTrajectory ℚˣ ℚ ℚ,
      (SimuTrajectory.opNot Example.Create Example.simu).bind
        (SimuTrajectory.opNot Example.Create) = some r ∧
      r._trajectory.NumKnots = Example.simu._trajectory.NumKnots ∧
      (∀ i : Nat, r._trajectory.GetKnot i = Example.simu._trajectory.GetKnot i) ∧
      r._poseSeq = Example.simu._poseSeq ∧
      ∀ p ∈ Example.simu._poseSeq,
        Trajectory.EvaluateAt Example.lieOps Example.lam 1 r._trajectory p.timeStamp
          = Trajectory.EvaluateAt Example.lieOps Example.lam 1 Example.simu._trajectory
              p.timeStamp :=
  ⟨rfl, C2_double_inversion_round_trip Example.lieOps Example.lam 1 Example.Create ⟨[], 0, 0⟩
    Example.simu rfl⟩

/-- C3: the residual written by `IMUGyroFactor::operator()` is
`w · (M(c) · (R_s2b · ω) + b − g_meas)`, where `ω` is the angular velocity evaluated from
the knot blocks starting at the computed base index and the bias `b`, the coefficients `c`
and the rotation `R_s2b` are the three blocks after the knot blocks, in this order; the
operator returns `true`. -/
theorem C3_gyro_residual_formula {K : Type} [Field K]
    (EvaluateLie : (Nat → Nat → K) → K → K → Vector3 K)
    (sm : SplineMeta K) (frame : IMUFrame K) (w : K) (sKnots : Nat → Nat → K) :
    let N : Nat := sm.NumParameters
    let base : Nat := (sm.ComputeSplineIndex frame.timestamp).1
    let u : K := (sm.ComputeSplineIndex frame.timestamp).2
    let omega : Vector3 K := EvaluateLie (fun i => sKnots (base + i)) u (1 / sm.dt)
    let b : Vector3 K := ![sKnots N 0, sKnots N 1, sKnots N 2]
    let c : Nat → K := sKnots (N + 1)
    let M : Matrix3 K := !![c 0, c 3, c 4; 0, c 1, c 5; 0, 0, c 2]
    IMUGyroFactor.operator EvaluateLie sm frame w sKnots
      = (true, w • (Matrix.mulVec M (SO3.act (sKnots (N + 2)) omega) + b - frame.gyro)) := by
  intro N base u omega b c M
  simp only [IMUGyroFactor.operator, Prod.mk.injEq, true_and]
  rw [IMUGyroFactor.gyroMapMat_eq]
  rfl

/-- C4: with a zero bias, the coefficients `(1,1,1,0,0,0)`, the identity rotation and a
measured vector equal to the spline-evaluated angular velocity, the residual is the zero
vector. -/
theorem C4_gyro_residual_zero {K : Type} [Field K]
    (EvaluateLie : (Nat → Nat → K) → K → K → Vector3 K)
    (sm : SplineMeta K) (frame : IMUFrame K) (w : K) (sKnots : Nat → Nat → K)
    (hb : sKnots sm.NumParameters 0 = 0 ∧ sKnots sm.NumParameters 1 = 0 ∧
      sKnots sm.NumParameters 2 = 0)
    (hc : sKnots (sm.NumParameters + 1) 0 = 1 ∧ sKnots (sm.NumParameters + 1) 1 = 1 ∧
      sKnots (sm.NumParameters + 1) 2 = 1 ∧ sKnots (sm.NumParameters + 1) 3 = 0 ∧
      sKnots (sm.NumParameters + 1) 4 = 0 ∧ sKnots (sm.NumParameters + 1) 5 = 0)
    (hR : sKnots (sm.NumParameters + 2) 0 = 0 ∧ sKnots (sm.NumParameters + 2) 1 = 0 ∧
      sKnots (sm.NumParameters + 2) 2 = 0 ∧ sKnots (sm.NumParameters + 2) 3 = 1)
    (hg : frame.gyro
      = EvaluateLie (fun i => sKnots ((sm.ComputeSplineIndex frame.timestamp).1 + i))
          (sm.ComputeSplineIndex frame.timestamp).2 (1 / sm.dt)) :
    (IMUGyroFactor.operator EvaluateLie sm frame w sKnots).2 = 0 := by
  obtain ⟨hb0, hb1, hb2⟩ := hb
  obtain ⟨hc0, hc1, hc2, hc3, hc4, hc5⟩ := hc
  obtain ⟨hR0, hR1, hR2, hR3⟩ := hR
  have hM : IMUGyroFactor.gyroMapMat (sKnots (sm.NumParameters + 1)) = 1 := by
    rw [IMUGyroFactor.gyroMapMat_eq, hc0, hc1, hc2, hc3, hc4, hc5]
    exact Matrix.one_fin_three.symm
  have hbias : (![sKnots sm.NumParameters 0, sKnots sm.NumParameters 1,
      sKnots sm.NumParameters 2] : Vector3 K) = 0 := by
    rw [hb0, hb1, hb2]
    ext i
    fin_cases i <;> rfl
  simp only [IMUGyroFactor.operator]
  rw [hM, SO3.act_identity _ _ hR0 hR1 hR2 hR3, Matrix.one_mulVec, hbias, hg]
  ext i
  simp

/-- C4 at the worked instance of the gyroscope factor. -/
theorem C4_gyro_residual_zero_witness :
    ((Example.sKnots Example.splineMeta.NumParameters 0 = 0 ∧
        Example.sKnots Example.splineMeta.NumParameters 1 = 0 ∧
        Example.sKnots Example.splineMeta.NumParameters 2 = 0) ∧
      (Example.sKnots (Example.splineMeta.NumParameters + 1) 0 = 1 ∧
        Example.sKnots (Example.splineMeta.NumParameters + 1) 1 = 1 ∧
        Example.sKnots (Example.splineMeta.NumParameters + 1) 2 = 1 ∧
        Example.sKnots (Example.splineMeta.NumParameters + 1) 3 = 0 ∧
        Example.sKnots (Example.splineMeta.NumParameters + 1) 4 = 0 ∧
        Example.sKnots (Example.splineMeta.NumParameters + 1) 5 = 0) ∧
      (Example.sKnots (Example.splineMeta.NumParameters + 2) 0 = 0 ∧
        Example.sKnots (Example.splineMeta.NumParameters + 2) 1 = 0 ∧
        Example.sKnots (Example.splineMeta.NumParameters + 2) 2 = 0 ∧
        Example.sKnots (Example.splineMeta.NumParameters + 2) 3 = 1)) ∧
    (IMUGyroFactor.operator Example.EvaluateLie Example.splineMeta Example.imuFrame 7
      Example.sKnots).2 = 0 :=
  have hb : Example.sKnots Example.splineMeta.NumParameters 0 = 0 ∧
      Example.sKnots Example.splineMeta.NumParameters 1 = 0 ∧
      Example.sKnots Example.splineMeta.NumParameters 2 = 0 := by
    simp [Example.sKnots, Example.splineMeta]
  have hc : Example.sKnots (Example.splineMeta.NumParameters + 1) 0 = 1 ∧
      Example.sKnots (Example.splineMeta.NumParameters + 1) 1 = 1 ∧
      Example.sKnots (Example.splineMeta.NumParameters + 1) 2 = 1 ∧
      Example.sKnots (Example.splineMeta.NumParameters + 1) 3 = 0 ∧
      Example.sKnots (Example.splineMeta.NumParameters + 1) 4 = 0 ∧
      Example.sKnots (Example.splineMeta.NumParameters + 1) 5 = 0 := by
    simp [Example.sKnots, Example.splineMeta]
  have hR : Example.sKnots (Example.splineMeta.NumParameters + 2) 0 = 0 ∧
      Example.sKnots (Example.splineMeta.NumParameters + 2) 1 = 0 ∧
      Example.sKnots (Example.splineMeta.NumParameters + 2) 2 = 0 ∧
      Example.sKnots (Example.splineMeta.NumParameters + 2) 3 = 1 := by
    simp [Example.sKnots, Example.splineMeta]
  ⟨⟨hb, hc, hR⟩,
    C4_gyro_residual_zero Example.EvaluateLie Example.splineMeta Example.imuFrame 7
      Example.sKnots hb hc hR rfl⟩

/-- C5, as stated, fails for a negative radius: with radius `-1` at time `0` the position
is `(-1, 0, 0)`, whose horizontal norm is `1`, not the radius `-1`. -/
theorem C5_circle_norm_counterexample :
    (SimuCircularMotion.GenPoseSequenceAtTime Real.cos Real.sin Real.sqrt (-1) 0).t
      = ![-1, 0, 0] ∧
    Real.sqrt
        (((SimuCircularMotion.GenPoseSequenceAtTime Real.cos Real.sin Real.sqrt (-1) 0).t 0) ^ 2
          + ((SimuCircularMotion.GenPoseSequenceAtTime Real.cos Real.sin Real.sqrt (-1) 0).t 1)
            ^ 2)
      = 1 ∧
    Real.sqrt
        (((SimuCircularMotion.GenPoseSequenceAtTime Real.cos Real.sin Real.sqrt (-1) 0).t 0) ^ 2
          + ((SimuCircularMotion.GenPoseSequenceAtTime Real.cos Real.sin Real.sqrt (-1) 0).t 1)
            ^ 2)
      ≠ -1 := by
  have hpos : (SimuCircularMotion.GenPoseSequenceAtTime Real.cos Real.sin Real.sqrt (-1) 0).t
      = ![-1, 0, 0] := by
    simp [SimuCircularMotion.GenPoseSequenceAtTime]
  have hnorm : Real.sqrt
      (((SimuCircularMotion.GenPoseSequenceAtTime Real.cos Real.sin Real.sqrt (-1) 0).t 0) ^ 2
        + ((SimuCircularMotion.GenPoseSequenceAtTime Real.cos Real.sin Real.sqrt (-1) 0).t 1)
          ^ 2) = 1 := by
    rw [hpos]
    simp
  refine ⟨hpos, hnorm, ?_⟩
  rw [hnorm]
  norm_num

/-- C5, amended: for the circular generator with radius `R`, the position at any time `t`
has horizontal norm `|R|` and height `0`. -/
theorem C5_circle_norm_abs (R t : ℝ) :
    Real.sqrt
        (((SimuCircularMotion.GenPoseSequenceAtTime Real.cos Real.sin Real.sqrt R t).t 0) ^ 2
          + ((SimuCircularMotion.GenPoseSequenceAtTime Real.cos Real.sin Real.sqrt R t).t 1) ^ 2)
      = |R| ∧
    (SimuCircularMotion.GenPoseSequenceAtTime Real.cos Real.sin Real.sqrt R t).t 2 = 0 := by
  constructor
  · have h : ((SimuCircularMotion.GenPoseSequenceAtTime Real.cos Real.sin Real.sqrt R t).t 0) ^ 2
        + ((SimuCircularMotion.GenPoseSequenceAtTime Real.cos Real.sin Real.sqrt R t).t 1) ^ 2
        = R ^ 2 := by
      simp only [SimuCircularMotion.GenPoseSequenceAtTime, Matrix.cons_val_zero,
        Matrix.cons_val_one, Matrix.head_cons]
      have hcs := Real.cos_sq_add_sin_sq t
      nlinarith [hcs]
    rw [h, Real.sqrt_sq_eq_abs]
  · simp [SimuCircularMotion.GenPoseSequenceAtTime]

/-- C6: for the linear generator over `[0, T]`, that is with `MinTime = 0` and
`MaxTime = T ≠ 0`, the position at `t = 0` is
`from`, the position at `t = T` is `to`, and between any two times the position changes by
`(t2 - t1) · (to - from) / T`. -/
theorem C6_linear_endpoints_constant_velocity {K : Type} [LinearOrderedField K]
    (sqrt : K → K) (_from _to : Vector3 K) (T : K) (hT : T ≠ 0) :
    (SimuUniformLinearMotion.GenPoseSequenceAtTime sqrt _from _to 0 T 0).t = _from ∧
    (SimuUniformLinearMotion.GenPoseSequenceAtTime sqrt _from _to 0 T T).t = _to ∧
    ∀ (t1 t2 : K) (i : Fin 3),
      (SimuUniformLinearMotion.GenPoseSequenceAtTime sqrt _from _to 0 T t2).t i
        - (SimuUniformLinearMotion.GenPoseSequenceAtTime sqrt _from _to 0 T t1).t i
        = (t2 - t1) * (_to i - _from i) / T := by
  refine ⟨?_, ?_, ?_⟩
  · ext i
    simp [SimuUniformLinearMotion.GenPoseSequenceAtTime]
  · ext i
    simp only [SimuUniformLinearMotion.GenPoseSequenceAtTime, sub_zero]
    field_simp
  · intro t1 t2 i
    simp only [SimuUniformLinearMotion.GenPoseSequenceAtTime, sub_zero]
    field_simp
    ring

/-- C6 at `from = (0,0,0)`, `to = (1,2,3)`, `T = 2`. -/
theorem C6_linear_endpoints_constant_velocity_witness :
    (2 : ℚ) ≠ 0 ∧
    ((SimuUniformLinearMotion.GenPoseSequenceAtTime id ![0, 0, 0] ![1, 2, 3] 0 (2 : ℚ) 0).t
        = ![0, 0, 0] ∧
      (SimuUniformLinearMotion.GenPoseSequenceAtTime id ![0, 0, 0] ![1, 2, 3] 0 (2 : ℚ) 2).t
        = ![1, 2, 3] ∧
      ∀ (t1 t2 : ℚ) (i : Fin 3),
        (SimuUniformLinearMotion.GenPoseSequenceAtTime id ![0, 0, 0] ![1, 2, 3] 0 (2 : ℚ) t2).t i
          - (SimuUniformLinearMotion.GenPoseSequenceAtTime id ![0, 0, 0] ![1, 2, 3] 0 (2 : ℚ)
              t1).t i
          = (t2 - t1) * ((![1, 2, 3] : Vector3 ℚ) i - (![0, 0, 0] : Vector3 ℚ) i) / 2) :=
  ⟨by norm_num,
    C6_linear_endpoints_constant_velocity id ![0, 0, 0] ![1, 2, 3] 2 (by norm_num)⟩

/-- C7: for every trajectory `s` and rigid transform `T`, once the copy constructor's spline
`Create(0.0, 0.0, 0.0)` is constructed, each of `s * T`, `T * s` and `!s` returns a
trajectory with the knot count, knot spacing, start time and rate of `s` and with as many
cached samples as `s`, carrying the same timestamps in the same order; knot `i` of the
result is `knot_i * T`, `T * knot_i` and `knot_i⁻¹` respectively, and the pose of every
cached sample is transformed the same way. -/
theorem C7_operators_preserve_shape {R V K : Type} [Zero K] [Group R] [AddCommGroup V]
    [DistribMulAction R V]
    (Create : K → K → K → Option (Trajectory (SE3 R V) K)) (created : Trajectory (SE3 R V) K)
    (s : SimuTrajectory R V K) (T : SE3 R V) (hCreate : Create 0 0 0 = some created) :
    ∃ r l n : SimuTrajectory R V K,
      (SimuTrajectory.opMul Create s T = some r ∧
        SimuTrajectory.opMulLeft Create T s = some l ∧
        SimuTrajectory.opNot Create s = some n) ∧
      (r._trajectory.NumKnots = s._trajectory.NumKnots ∧
        l._trajectory.NumKnots = s._trajectory.NumKnots ∧
        n._trajectory.NumKnots = s._trajectory.NumKnots) ∧
      (r._trajectory.dt = s._trajectory.dt ∧ l._trajectory.dt = s._trajectory.dt ∧
        n._trajectory.dt = s._trajectory.dt) ∧
      (r._trajectory.startTime = s._trajectory.startTime ∧
        l._trajectory.startTime = s._trajectory.startTime ∧
        n._trajectory.startTime = s._trajectory.startTime) ∧
      (r._hz = s._hz ∧ l._hz = s._hz ∧ n._hz = s._hz) ∧
      (r._poseSeq.length = s._poseSeq.length ∧ l._poseSeq.length = s._poseSeq.length ∧
        n._poseSeq.length = s._poseSeq.length) ∧
      ((r._poseSeq.map fun p => p.timeStamp) = (s._poseSeq.map fun p => p.timeStamp) ∧
        (l._poseSeq.map fun p => p.timeStamp) = (s._poseSeq.map fun p => p.timeStamp) ∧
        (n._poseSeq.map fun p => p.timeStamp) = (s._poseSeq.map fun p => p.timeStamp)) ∧
      (∀ i : Nat,
        r._trajectory.GetKnot i = (s._trajectory.GetKnot i).map (fun knot => knot * T) ∧
        l._trajectory.GetKnot i = (s._trajectory.GetKnot i).map (fun knot => T * knot) ∧
        n._trajectory.GetKnot i = (s._trajectory.GetKnot i).map (fun knot => knot⁻¹)) ∧
      ((r._poseSeq.map fun p => p.se3) = (s._poseSeq.map fun p => p.se3 * T) ∧
        (l._poseSeq.map fun p => p.se3) = (s._poseSeq.map fun p => T * p.se3) ∧
        (n._poseSeq.map fun p => p.se3) = (s._poseSeq.map fun p => (p.se3)⁻¹)) := by
  refine ⟨_, _, _,
    ⟨SimuTrajectory.opMul_of_created Create created hCreate s T,
      SimuTrajectory.opMulLeft_of_created Create created hCreate T s,
      SimuTrajectory.opNot_of_created Create created hCreate s⟩, ?_, ?_, ?_, ?_, ?_, ?_, ?_, ?_⟩
  · simp [Trajectory.NumKnots]
  · exact ⟨rfl, rfl, rfl⟩
  · exact ⟨rfl, rfl, rfl⟩
  · exact ⟨rfl, rfl, rfl⟩
  · simp
  · refine ⟨?_, ?_, ?_⟩ <;>
      simp only [List.map_map] <;> rfl
  · intro i
    refine ⟨?_, ?_, ?_⟩ <;> simp only [Trajectory.GetKnot, List.getElem?_map]
  · refine ⟨?_, ?_, ?_⟩ <;>
      simp only [List.map_map] <;> rfl

/-- C7 at the worked instance: the three-knot trajectory and the scaling by two. -/
theorem C7_operators_preserve_shape_witness :
    Example.Create 0 0 0 = some ⟨[], 0, 0⟩ ∧
    ∃ r : SimuTrajectory ℚˣ ℚ ℚ,
      SimuTrajectory.opMul Example.Create Example.simu Example.scaling = some r ∧
      r._trajectory.NumKnots = 3 ∧ r._hz = 1 ∧
      (r._poseSeq.map fun p => p.timeStamp) = [0, 1] ∧
      r._trajectory.GetKnot 2 = some (⟨1, 3⟩ * Example.scaling) :=
  have h := C7_operators_preserve_shape Example.Create ⟨[], 0, 0⟩ Example.simu
    Example.scaling rfl
  ⟨rfl, h.choose, h.choose_spec.choose_spec.choose_spec.1.1,
    h.choose_spec.choose_spec.choose_spec.2.1.1,
    h.choose_spec.choose_spec.choose_spec.2.2.2.2.1.1,
    h.choose_spec.choose_spec.choose_spec.2.2.2.2.2.2.1.1,
    (h.choose_spec.choose_spec.choose_spec.2.2.2.2.2.2.2.1 2).1⟩

/-- C8: the matrix built from six coefficients `c` has diagonal `(c0, c1, c2)`, entries
`(0,1)`, `(0,2)`, `(1,2)` equal to `c3`, `c4`, `c5`, and entries `(1,0)`, `(2,0)`, `(2,1)`
equal to zero. -/
theorem C8_gyroMapMat_upper_triangular {K : Type} [Zero K] (c : Nat → K) :
    IMUGyroFactor.gyroMapMat c 0 0 = c 0 ∧ IMUGyroFactor.gyroMapMat c 1 1 = c 1 ∧
    IMUGyroFactor.gyroMapMat c 2 2 = c 2 ∧ IMUGyroFactor.gyroMapMat c 0 1 = c 3 ∧
    IMUGyroFactor.gyroMapMat c 0 2 = c 4 ∧ IMUGyroFactor.gyroMapMat c 1 2 = c 5 ∧
    IMUGyroFactor.gyroMapMat c 1 0 = 0 ∧ IMUGyroFactor.gyroMapMat c 2 0 = 0 ∧
    IMUGyroFactor.gyroMapMat c 2 1 = 0 := by
  simp [IMUGyroFactor.gyroMapMat, Matrix3.setCoeff, Matrix3.setDiagonal]

/-- C9: for the uniformly accelerated generator on a spline with `MinTime ≠ MaxTime`, the
position at every time `t` is `from + ½·a·t²` with the acceleration
`a = 2·(to − from) / (MaxTime − MinTime)²`; it is `from` at `t = 0` and `to` at
`t = MaxTime − MinTime`. -/
theorem C9_accelerated_position_law {K : Type} [LinearOrderedField K]
    (sqrt : K → K) (_from _to : Vector3 K) (MinTime MaxTime : K) (h : MinTime ≠ MaxTime) :
    (∀ i : Fin 3, SimuUniformAcceleratedMotion.linearAcce _from _to MinTime MaxTime i
      = 2 * (_to i - _from i) / (MaxTime - MinTime) ^ 2) ∧
    (∀ (t : K) (i : Fin 3),
      (SimuUniformAcceleratedMotion.GenPoseSequenceAtTime sqrt _from _to MinTime MaxTime t).t i
        = _from i
          + 1 / 2 * SimuUniformAcceleratedMotion.linearAcce _from _to MinTime MaxTime i
            * t ^ 2) ∧
    (SimuUniformAcceleratedMotion.GenPoseSequenceAtTime sqrt _from _to MinTime MaxTime 0).t
      = _from ∧
    (SimuUniformAcceleratedMotion.GenPoseSequenceAtTime sqrt _from _to MinTime MaxTime
      (MaxTime - MinTime)).t = _to := by
  have hne : MaxTime - MinTime ≠ 0 := sub_ne_zero.mpr (Ne.symm h)
  refine ⟨?_, ?_, ?_, ?_⟩
  · intro i
    simp only [SimuUniformAcceleratedMotion.linearAcce]
    ring
  · intro t i
    simp only [SimuUniformAcceleratedMotion.GenPoseSequenceAtTime]
    ring
  · ext i
    simp [SimuUniformAcceleratedMotion.GenPoseSequenceAtTime]
  · ext i
    simp only [SimuUniformAcceleratedMotion.GenPoseSequenceAtTime,
      SimuUniformAcceleratedMotion.linearAcce]
    field_simp
    ring

/-- C9 at `from = (0,0,0)`, `to = (1,2,3)`, `MinTime = 1`, `MaxTime = 3`. -/
theorem C9_accelerated_position_law_witness :
    (1 : ℚ) ≠ 3 ∧
    ((∀ i : Fin 3, SimuUniformAcceleratedMotion.linearAcce ![0, 0, 0] ![1, 2, 3] (1 : ℚ) 3 i
        = 2 * ((![1, 2, 3] : Vector3 ℚ) i - (![0, 0, 0] : Vector3 ℚ) i) / (3 - 1) ^ 2) ∧
      (∀ (t : ℚ) (i : Fin 3),
        (SimuUniformAcceleratedMotion.GenPoseSequenceAtTime id ![0, 0, 0] ![1, 2, 3] (1 : ℚ) 3
            t).t i
          = (![0, 0, 0] : Vector3 ℚ) i
            + 1 / 2 * SimuUniformAcceleratedMotion.linearAcce ![0, 0, 0] ![1, 2, 3] (1 : ℚ) 3 i
              * t ^ 2) ∧
      (SimuUniformAcceleratedMotion.GenPoseSequenceAtTime id ![0, 0, 0] ![1, 2, 3] (1 : ℚ) 3
        0).t = ![0, 0, 0] ∧
      (SimuUniformAcceleratedMotion.GenPoseSequenceAtTime id ![0, 0, 0] ![1, 2, 3] (1 : ℚ) 3
        (3 - 1)).t = ![1, 2, 3]) :=
  ⟨by norm_num,
    C9_accelerated_position_law id ![0, 0, 0] ![1, 2, 3] 1 3 (by norm_num)⟩

/-- C10 fails on the code: on the validity interval `[1, 2)` with `from = (0,0,0)` and
`to = (1,0,0)` the linear generator returns `to`, not `from`, at `t = MinTime = 1`, and at
`t = 3/2` it returns `(3/2, 0, 0)`, which is `from + λ·(to − from)` for no `λ` in `[0, 1]`. -/
theorem C10_linear_leaves_segment :
    ∀ sqrt : ℚ → ℚ,
      (SimuUniformLinearMotion.GenPoseSequenceAtTime sqrt ![0, 0, 0] ![1, 0, 0] 1 2 1).t
        = ![1, 0, 0] ∧
      (SimuUniformLinearMotion.GenPoseSequenceAtTime sqrt ![0, 0, 0] ![1, 0, 0] 1 2 1).t
        ≠ ![0, 0, 0] ∧
      (SimuUniformLinearMotion.GenPoseSequenceAtTime sqrt ![0, 0, 0] ![1, 0, 0] 1 2 (3 / 2)).t
        = ![3 / 2, 0, 0] ∧
      ¬ ∃ l : ℚ, 0 ≤ l ∧ l ≤ 1 ∧
        (SimuUniformLinearMotion.GenPoseSequenceAtTime sqrt ![0, 0, 0] ![1, 0, 0] 1 2
            (3 / 2)).t
          = fun i => (![0, 0, 0] : Vector3 ℚ) i
              + l * ((![1, 0, 0] : Vector3 ℚ) i - (![0, 0, 0] : Vector3 ℚ) i) := by
  intro sqrt
  have h1 : (SimuUniformLinearMotion.GenPoseSequenceAtTime sqrt ![0, 0, 0] ![1, 0, 0] 1 2 1).t
      = ![1, 0, 0] := by
    ext i
    fin_cases i <;> simp [SimuUniformLinearMotion.GenPoseSequenceAtTime]
    all_goals norm_num
  have h2 : (SimuUniformLinearMotion.GenPoseSequenceAtTime sqrt ![0, 0, 0] ![1, 0, 0] 1 2
      (3 / 2)).t = ![3 / 2, 0, 0] := by
    ext i
    fin_cases i <;> simp [SimuUniformLinearMotion.GenPoseSequenceAtTime]
    all_goals norm_num
  refine ⟨h1, ?_, h2, ?_⟩
  · rw [h1]
    intro h
    have := congrFun h 0
    simp at this
  · rintro ⟨l, _, hl1, hl⟩
    rw [h2] at hl
    have := congrFun hl 0
    simp at this
    linarith

/-- C11: for the spiral generator with radius `R` and height increment `h`, at every time
`t` the horizontal position is the circular generator's `(R·cos t, R·sin t)`, the height is
`t / (2π) · h`, and the height gained over one full turn `2π` is `h`. -/
theorem C11_spiral_height_per_turn (R h t : ℝ) :
    (SimuSpiralMotion.GenPoseSequenceAtTime Real.cos Real.sin Real.sqrt Real.pi R h t).t 0
      = R * Real.cos t ∧
    (SimuSpiralMotion.GenPoseSequenceAtTime Real.cos Real.sin Real.sqrt Real.pi R h t).t 1
      = R * Real.sin t ∧
    (SimuSpiralMotion.GenPoseSequenceAtTime Real.cos Real.sin Real.sqrt Real.pi R h t).t 0
      = (SimuCircularMotion.GenPoseSequenceAtTime Real.cos Real.sin Real.sqrt R t).t 0 ∧
    (SimuSpiralMotion.GenPoseSequenceAtTime Real.cos Real.sin Real.sqrt Real.pi R h t).t 1
      = (SimuCircularMotion.GenPoseSequenceAtTime Real.cos Real.sin Real.sqrt R t).t 1 ∧
    (SimuSpiralMotion.GenPoseSequenceAtTime Real.cos Real.sin Real.sqrt Real.pi R h t).t 2
      = t / (2 * Real.pi) * h ∧
    (SimuSpiralMotion.GenPoseSequenceAtTime Real.cos Real.sin Real.sqrt Real.pi R h
        (t + 2 * Real.pi)).t 2
      - (SimuSpiralMotion.GenPoseSequenceAtTime Real.cos Real.sin Real.sqrt Real.pi R h t).t 2
      = h := by
  have hpi : (2 * Real.pi) ≠ 0 := mul_ne_zero two_ne_zero Real.pi_ne_zero
  refine ⟨?_, ?_, rfl, rfl, rfl, ?_⟩
  · simp [SimuSpiralMotion.GenPoseSequenceAtTime, mul_comm]
  · simp [SimuSpiralMotion.GenPoseSequenceAtTime, mul_comm]
  · simp only [SimuSpiralMotion.GenPoseSequenceAtTime, Matrix.cons_val_two, Matrix.tail_cons,
      Matrix.head_cons]
    field_simp
    ring

/-- C12: for the wave generator with radius `R` and height `H`, at every time `t` the
horizontal position is the circular generator's `(R·cos t, R·sin t)`, the height is
`H·sin(2πt)`, it has period `1` in `t`, and its absolute value is at most `|H|`. -/
theorem C12_wave_height_periodic_bounded (R H t : ℝ) :
    (SimuWaveMotion.GenPoseSequenceAtTime Real.cos Real.sin Real.sqrt Real.pi R H t).t 0
      = R * Real.cos t ∧
    (SimuWaveMotion.GenPoseSequenceAtTime Real.cos Real.sin Real.sqrt Real.pi R H t).t 1
      = R * Real.sin t ∧
    (SimuWaveMotion.GenPoseSequenceAtTime Real.cos Real.sin Real.sqrt Real.pi R H t).t 0
      = (SimuCircularMotion.GenPoseSequenceAtTime Real.cos Real.sin Real.sqrt R t).t 0 ∧
    (SimuWaveMotion.GenPoseSequenceAtTime Real.cos Real.sin Real.sqrt Real.pi R H t).t 1
      = (SimuCircularMotion.GenPoseSequenceAtTime Real.cos Real.sin Real.sqrt R t).t 1 ∧
    (SimuWaveMotion.GenPoseSequenceAtTime Real.cos Real.sin Real.sqrt Real.pi R H t).t 2
      = H * Real.sin (2 * Real.pi * t) ∧
    (SimuWaveMotion.GenPoseSequenceAtTime Real.cos Real.sin Real.sqrt Real.pi R H (t + 1)).t 2
      = (SimuWaveMotion.GenPoseSequenceAtTime Real.cos Real.sin Real.sqrt Real.pi R H t).t 2 ∧
    |(SimuWaveMotion.GenPoseSequenceAtTime Real.cos Real.sin Real.sqrt Real.pi R H t).t 2|
      ≤ |H| := by
  have hz : ∀ s : ℝ,
      (SimuWaveMotion.GenPoseSequenceAtTime Real.cos Real.sin Real.sqrt Real.pi R H s).t 2
        = H * Real.sin (2 * Real.pi * s) := by
    intro s
    simp [SimuWaveMotion.GenPoseSequenceAtTime, mul_comm]
  refine ⟨?_, ?_, rfl, rfl, hz t, ?_, ?_⟩
  · simp [SimuWaveMotion.GenPoseSequenceAtTime, mul_comm]
  · simp [SimuWaveMotion.GenPoseSequenceAtTime, mul_comm]
  · rw [hz, hz]
    have hper : 2 * Real.pi * (t + 1) = 2 * Real.pi * t + 2 * Real.pi := by ring
    rw [hper, Real.sin_add_two_pi]
  · rw [hz, abs_mul]
    calc |H| * |Real.sin (2 * Real.pi * t)| ≤ |H| * 1 :=
          mul_le_mul_of_nonneg_left (Real.abs_sin_le_one _) (abs_nonneg H)
      _ = |H| := mul_one _

/-- C13: for the circular generator with radius `R > 0` and every time `t`, the y-axis
column of the orientation is the unit vector from the position toward the circle center,
`(-cos t, -sin t, 0)`, the x-axis column is the unit tangent `(-sin t, cos t, 0)`, the
z-axis column is `x × y = (0, 0, 1)`, and the matrix is a proper rotation. -/
theorem C13_circle_frame (R t : ℝ) (hR : 0 < R) :
    (∀ i : Fin 3,
      (SimuCircularMotion.GenPoseSequenceAtTime Real.cos Real.sin Real.sqrt R t).so3 i 1
        = -((SimuCircularMotion.GenPoseSequenceAtTime Real.cos Real.sin Real.sqrt R t).t i
            / Vector3.norm Real.sqrt
                (SimuCircularMotion.GenPoseSequenceAtTime Real.cos Real.sin Real.sqrt R t).t)) ∧
    (fun i => (SimuCircularMotion.GenPoseSequenceAtTime Real.cos Real.sin Real.sqrt R t).so3 i 1)
      = ![-Real.cos t, -Real.sin t, 0] ∧
    (fun i => (SimuCircularMotion.GenPoseSequenceAtTime Real.cos Real.sin Real.sqrt R t).so3 i 0)
      = ![-Real.sin t, Real.cos t, 0] ∧
    (fun i => (SimuCircularMotion.GenPoseSequenceAtTime Real.cos Real.sin Real.sqrt R t).so3 i 2)
      = ![0, 0, 1] ∧
    (∀ i : Fin 3,
      (SimuCircularMotion.GenPoseSequenceAtTime Real.cos Real.sin Real.sqrt R t).so3 i 2
        = Vector3.cross
            (fun k =>
              (SimuCircularMotion.GenPoseSequenceAtTime Real.cos Real.sin Real.sqrt R t).so3 k 0)
            (fun k =>
              (SimuCircularMotion.GenPoseSequenceAtTime Real.cos Real.sin Real.sqrt R t).so3 k 1)
            i) ∧
    Matrix3.IsProperRotation
      (SimuCircularMotion.GenPoseSequenceAtTime Real.cos Real.sin Real.sqrt R t).so3 := by
  have hcs : Real.cos t * Real.cos t + Real.sin t * Real.sin t = 1 := by
    have := Real.cos_sq_add_sin_sq t
    nlinarith [this]
  have hR2 : 0 < R * R := mul_pos hR hR
  have hp : 0 < (![Real.cos t * R, Real.sin t * R, 0] : Vector3 ℝ) 0
      * (![Real.cos t * R, Real.sin t * R, 0] : Vector3 ℝ) 0
      + (![Real.cos t * R, Real.sin t * R, 0] : Vector3 ℝ) 1
        * (![Real.cos t * R, Real.sin t * R, 0] : Vector3 ℝ) 1 := by
    simp only [Matrix.cons_val_zero, Matrix.cons_val_one, Matrix.head_cons]
    nlinarith [hcs, hR2]
  have hframe := Posed.radial_frame ![Real.cos t * R, Real.sin t * R, 0] t hp
  obtain ⟨hrot, _, hy, hz⟩ := hframe
  have hN1 : Vector3.squaredNorm (![Real.cos t * R, Real.sin t * R, 0] : Vector3 ℝ) = R * R := by
    simp only [Vector3.squaredNorm, Matrix.cons_val_zero, Matrix.cons_val_one,
      Matrix.head_cons, Matrix.cons_val_two, Matrix.tail_cons]
    nlinarith [hcs]
  have hN2 : Vector3.squaredNorm
      (![-(![Real.cos t * R, Real.sin t * R, 0] : Vector3 ℝ) 1,
        (![Real.cos t * R, Real.sin t * R, 0] : Vector3 ℝ) 0, 0] : Vector3 ℝ) = R * R := by
    simp only [Vector3.squaredNorm, Matrix.cons_val_zero, Matrix.cons_val_one,
      Matrix.head_cons, Matrix.cons_val_two, Matrix.tail_cons]
    nlinarith [hcs]
  have hsqrt : Real.sqrt (R * R) = R := Real.sqrt_mul_self (le_of_lt hR)
  have hRne : R ≠ 0 := ne_of_gt hR
  have hycol : (fun i =>
      (SimuCircularMotion.GenPoseSequenceAtTime Real.cos Real.sin Real.sqrt R t).so3 i 1)
      = ![-Real.cos t, -Real.sin t, 0] := by
    ext i
    simp only [SimuCircularMotion.GenPoseSequenceAtTime]
    rw [Vector3.normalized_of_pos Real.sqrt
      (![Real.cos t * R, Real.sin t * R, 0] : Vector3 ℝ) (by rw [hN1]; exact hR2), hN1, hsqrt]
    fin_cases i <;> simp [Matrix3.ofCols, hRne]
  have hxcol : (fun i =>
      (SimuCircularMotion.GenPoseSequenceAtTime Real.cos Real.sin Real.sqrt R t).so3 i 0)
      = ![-Real.sin t, Real.cos t, 0] := by
    ext i
    simp only [SimuCircularMotion.GenPoseSequenceAtTime]
    rw [Vector3.normalized_of_pos Real.sqrt
      (![-(![Real.cos t * R, Real.sin t * R, 0] : Vector3 ℝ) 1,
        (![Real.cos t * R, Real.sin t * R, 0] : Vector3 ℝ) 0, 0] : Vector3 ℝ)
      (by rw [hN2]; exact hR2), hN2, hsqrt]
    fin_cases i <;> simp [Matrix3.ofCols, hRne, neg_div]
  have hzc : ∀ i : Fin 3,
      (SimuCircularMotion.GenPoseSequenceAtTime Real.cos Real.sin Real.sqrt R t).so3 i 2
        = Vector3.cross
            (fun k =>
              (SimuCircularMotion.GenPoseSequenceAtTime Real.cos Real.sin Real.sqrt R t).so3 k 0)
            (fun k =>
              (SimuCircularMotion.GenPoseSequenceAtTime Real.cos Real.sin Real.sqrt R t).so3 k 1)
            i := hz
  refine ⟨hy, hycol, hxcol, ?_, hzc, hrot⟩
  ext i
  rw [hzc i, hxcol, hycol]
  fin_cases i <;> simp [Vector3.cross]
  linarith [hcs]

/-- C13 at radius `2` and time `0`. -/
theorem C13_circle_frame_witness :
    (0 : ℝ) < 2 ∧
    Matrix3.IsProperRotation
      (SimuCircularMotion.GenPoseSequenceAtTime Real.cos Real.sin Real.sqrt 2 0).so3 :=
  ⟨by norm_num, (C13_circle_frame 2 0 (by norm_num)).2.2.2.2.2⟩

/-- C14: a call of the random-walk generator at time `t` with drawn translation components
`d1 d2 d3` and drawn angles `a1 a2 a3` (about z, y and x) returns the pose it stores, with
timestamp `t`, position `previous + (d1, d2, d3)` and orientation
`Rx(a3)·Ry(a2)·Rz(a1)·previous`. The constructor starts from the identity orientation at
the origin and sets the draw bounds to `±maxStride` and to `±maxAngleDeg/180·π`. -/
theorem C14_random_walk_step {K : Type} [Field K] (cos sin : K → K) (pi : K)
    (self : SimuDrunkardMotion K) (t d1 d2 d3 a1 a2 a3 : K) (origin : Vector3 K)
    (maxStride maxAngleDeg sTime : K) :
    (SimuDrunkardMotion.GenPoseSequenceAtTime cos sin self t d1 d2 d3 a1 a2 a3).1
      = (SimuDrunkardMotion.GenPoseSequenceAtTime cos sin self t d1 d2 d3 a1 a2 a3).2._lastState
      ∧
    (SimuDrunkardMotion.GenPoseSequenceAtTime cos sin self t d1 d2 d3 a1 a2 a3).1.timeStamp = t
      ∧
    (SimuDrunkardMotion.GenPoseSequenceAtTime cos sin self t d1 d2 d3 a1 a2 a3).1.t
      = self._lastState.t + ![d1, d2, d3] ∧
    (SimuDrunkardMotion.GenPoseSequenceAtTime cos sin self t d1 d2 d3 a1 a2 a3).1.so3
      = !![1, 0, 0; 0, cos a3, -sin a3; 0, sin a3, cos a3]
        * !![cos a2, 0, sin a2; 0, 1, 0; -sin a2, 0, cos a2]
        * !![cos a1, -sin a1, 0; sin a1, cos a1, 0; 0, 0, 1]
        * self._lastState.so3 ∧
    (SimuDrunkardMotion.init pi origin maxStride maxAngleDeg sTime)._lastState.so3 = 1 ∧
    (SimuDrunkardMotion.init pi origin maxStride maxAngleDeg sTime)._lastState.t = origin ∧
    (SimuDrunkardMotion.init pi origin maxStride maxAngleDeg sTime)._randStride
      = (-maxStride, maxStride) ∧
    (SimuDrunkardMotion.init pi origin maxStride maxAngleDeg sTime)._randAngle
      = (-(maxAngleDeg / 180 * pi), maxAngleDeg / 180 * pi) := by
  have hz : AngleAxis.toRotationMatrix cos sin a1 ![0, 0, 1]
      = !![cos a1, -sin a1, 0; sin a1, cos a1, 0; 0, 0, 1] := by
    ext i j
    fin_cases i <;> fin_cases j <;> simp [AngleAxis.toRotationMatrix]
  have hy : AngleAxis.toRotationMatrix cos sin a2 ![0, 1, 0]
      = !![cos a2, 0, sin a2; 0, 1, 0; -sin a2, 0, cos a2] := by
    ext i j
    fin_cases i <;> fin_cases j <;> simp [AngleAxis.toRotationMatrix]
  have hx : AngleAxis.toRotationMatrix cos sin a3 ![1, 0, 0]
      = !![1, 0, 0; 0, cos a3, -sin a3; 0, sin a3, cos a3] := by
    ext i j
    fin_cases i <;> fin_cases j <;> simp [AngleAxis.toRotationMatrix]
  refine ⟨rfl, rfl, rfl, ?_, rfl, rfl, rfl, ?_⟩
  · simp only [SimuDrunkardMotion.GenPoseSequenceAtTime, hx, hy, hz]
  · simp only [SimuDrunkardMotion.init, Prod.mk.injEq, and_true]
    ring

/-- C15, as stated, fails at the end of the interval: between `from = (0,0,0)` and
`to = (1,0,0)` over `[0, 1]` the velocity of the first coordinate at the end time `1` is
`2`, not zero. -/
theorem C15_rest_to_rest_counterexample :
    deriv (fun s : ℝ =>
        (SimuUniformAcceleratedMotion.GenPoseSequenceAtTime Real.sqrt ![0, 0, 0] ![1, 0, 0] 0 1
          s).t 0) 1 = 2 ∧
    deriv (fun s : ℝ =>
        (SimuUniformAcceleratedMotion.GenPoseSequenceAtTime Real.sqrt ![0, 0, 0] ![1, 0, 0] 0 1
          s).t 0) 1 ≠ 0 := by
  have hfun : (fun s : ℝ =>
      (SimuUniformAcceleratedMotion.GenPoseSequenceAtTime Real.sqrt ![0, 0, 0] ![1, 0, 0] 0 1
        s).t 0) = fun s : ℝ => s * s := by
    funext s
    simp [SimuUniformAcceleratedMotion.GenPoseSequenceAtTime,
      SimuUniformAcceleratedMotion.linearAcce]
  have hd : HasDerivAt (fun s : ℝ => s * s) (1 * 1 + 1 * 1) 1 :=
    (hasDerivAt_id (1 : ℝ)).mul (hasDerivAt_id (1 : ℝ))
  have h2 : deriv (fun s : ℝ =>
      (SimuUniformAcceleratedMotion.GenPoseSequenceAtTime Real.sqrt ![0, 0, 0] ![1, 0, 0] 0 1
        s).t 0) 1 = 2 := by
    rw [hfun, hd.deriv]
    norm_num
  exact ⟨h2, by rw [h2]; norm_num⟩

/-- C15, amended: the velocity of the uniformly accelerated generator at time `t` is
`a·t` with `a = 2·(to − from) / (MaxTime − MinTime)²`; it is zero at `t = 0` and equals
`2·(to − from) / (MaxTime − MinTime)` at `t = MaxTime − MinTime`. -/
theorem C15_velocity_is_linear_in_time (_from _to : Vector3 ℝ) (MinTime MaxTime : ℝ)
    (i : Fin 3) :
    (∀ t : ℝ, HasDerivAt (fun s : ℝ =>
        (SimuUniformAcceleratedMotion.GenPoseSequenceAtTime Real.sqrt _from _to MinTime MaxTime
          s).t i)
        (SimuUniformAcceleratedMotion.linearAcce _from _to MinTime MaxTime i * t) t) ∧
    deriv (fun s : ℝ =>
        (SimuUniformAcceleratedMotion.GenPoseSequenceAtTime Real.sqrt _from _to MinTime MaxTime
          s).t i) 0 = 0 ∧
    deriv (fun s : ℝ =>
        (SimuUniformAcceleratedMotion.GenPoseSequenceAtTime Real.sqrt _from _to MinTime MaxTime
          s).t i) (MaxTime - MinTime)
      = 2 * (_to i - _from i) / (MaxTime - MinTime) := by
  have hder : ∀ t : ℝ, HasDerivAt (fun s : ℝ =>
      (SimuUniformAcceleratedMotion.GenPoseSequenceAtTime Real.sqrt _from _to MinTime MaxTime
        s).t i)
      (SimuUniformAcceleratedMotion.linearAcce _from _to MinTime MaxTime i * t) t := by
    intro t
    have h1 : HasDerivAt (fun s : ℝ =>
        2⁻¹ * SimuUniformAcceleratedMotion.linearAcce _from _to MinTime MaxTime i * s * s)
        (2⁻¹ * SimuUniformAcceleratedMotion.linearAcce _from _to MinTime MaxTime i * 1 * t
          + 2⁻¹ * SimuUniformAcceleratedMotion.linearAcce _from _to MinTime MaxTime i * t * 1)
        t :=
      ((hasDerivAt_id t).const_mul _).mul (hasDerivAt_id t)
    have h2 := h1.const_add (_from i)
    convert h2 using 1
    ring
  refine ⟨hder, ?_, ?_⟩
  · rw [(hder 0).deriv, mul_zero]
  · rw [(hder (MaxTime - MinTime)).deriv]
    simp only [SimuUniformAcceleratedMotion.linearAcce]
    by_cases h : MaxTime - MinTime = 0
    · simp [h]
    · field_simp
      ring

/-- C17: for the linear and the uniformly accelerated generator with `from ≠ to`, the
matrix handed to the rotation constructor is the same for both, its x-axis column is the
unit vector along `to - from`, it is a proper rotation exactly when `to - from` has a
non-zero x or y component, and for purely vertical travel its y and z columns are zero. -/
theorem C17_travel_frame_proper_iff_horizontal (_from _to : Vector3 ℝ)
    (MinTime MaxTime t : ℝ) (hne : _from ≠ _to) :
    (SimuUniformAcceleratedMotion.GenPoseSequenceAtTime Real.sqrt _from _to MinTime MaxTime
        t).so3
      = (SimuUniformLinearMotion.GenPoseSequenceAtTime Real.sqrt _from _to MinTime MaxTime
          t).so3 ∧
    (∀ i : Fin 3,
      (SimuUniformLinearMotion.GenPoseSequenceAtTime Real.sqrt _from _to MinTime MaxTime
          t).so3 i 0
        = (_to i - _from i) / Vector3.norm Real.sqrt (_to - _from)) ∧
    Vector3.squaredNorm (fun i =>
      (SimuUniformLinearMotion.GenPoseSequenceAtTime Real.sqrt _from _to MinTime MaxTime
        t).so3 i 0) = 1 ∧
    (Matrix3.IsProperRotation
        (SimuUniformLinearMotion.GenPoseSequenceAtTime Real.sqrt _from _to MinTime MaxTime
          t).so3
      ↔ (_to 0 - _from 0 ≠ 0 ∨ _to 1 - _from 1 ≠ 0)) ∧
    (_to 0 - _from 0 = 0 ∧ _to 1 - _from 1 = 0 →
      ∀ i : Fin 3,
        (SimuUniformLinearMotion.GenPoseSequenceAtTime Real.sqrt _from _to MinTime MaxTime
            t).so3 i 1 = 0 ∧
        (SimuUniformLinearMotion.GenPoseSequenceAtTime Real.sqrt _from _to MinTime MaxTime
            t).so3 i 2 = 0) := by
  have hd : _to - _from ≠ 0 := by
    intro h
    exact hne (sub_eq_zero.mp h).symm
  obtain ⟨hx, hiff, hvert⟩ := Matrix3.travel_frame (_to - _from) hd
  have hN0 := Vector3.squaredNorm_pos (_to - _from) hd
  refine ⟨rfl, hx, ?_, hiff, hvert⟩
  have hx2 : ∀ i : Fin 3,
      (SimuUniformLinearMotion.GenPoseSequenceAtTime Real.sqrt _from _to MinTime MaxTime
          t).so3 i 0
        = (_to - _from) i / Vector3.norm Real.sqrt (_to - _from) := hx
  simp only [Vector3.squaredNorm, hx2, Vector3.norm]
  have hN : Real.sqrt (Vector3.squaredNorm (_to - _from))
      * Real.sqrt (Vector3.squaredNorm (_to - _from))
      = Vector3.squaredNorm (_to - _from) := Real.mul_self_sqrt (le_of_lt hN0)
  simp only [Vector3.squaredNorm] at hN hN0
  rw [div_mul_div_comm, div_mul_div_comm, div_mul_div_comm, ← add_div, ← add_div, hN]
  exact div_self (ne_of_gt hN0)

/-- C17 at `from = (0,0,0)`, `to = (1,2,3)`. -/
theorem C17_travel_frame_proper_iff_horizontal_witness :
    (![0, 0, 0] : Vector3 ℝ) ≠ ![1, 2, 3] ∧
    Matrix3.IsProperRotation
      (SimuUniformLinearMotion.GenPoseSequenceAtTime Real.sqrt ![0, 0, 0] ![1, 2, 3] 0 10
        1).so3 :=
  have hne : (![0, 0, 0] : Vector3 ℝ) ≠ ![1, 2, 3] := by
    intro h
    have := congrFun h 0
    simp at this
  ⟨hne,
    (C17_travel_frame_proper_iff_horizontal ![0, 0, 0] ![1, 2, 3] 0 10 1 hne).2.2.2.1.mpr
      (Or.inl (by simp))⟩

/-- C18: for the circular, spiral and wave generators with radius `R ≠ 0`, every time `t`
and any height parameter, the matrix handed to the rotation constructor is a proper
rotation whose x-axis column is orthogonal to the position, whose y-axis column is the unit
vector from the position toward the origin, and whose z-axis column is `x × y`. -/
theorem C18_radial_frames_proper (R h t : ℝ) (hR : R ≠ 0) :
    Posed.IsRadialFrame Real.sqrt
      (SimuCircularMotion.GenPoseSequenceAtTime Real.cos Real.sin Real.sqrt R t) ∧
    Posed.IsRadialFrame Real.sqrt
      (SimuSpiralMotion.GenPoseSequenceAtTime Real.cos Real.sin Real.sqrt Real.pi R h t) ∧
    Posed.IsRadialFrame Real.sqrt
      (SimuWaveMotion.GenPoseSequenceAtTime Real.cos Real.sin Real.sqrt Real.pi R h t) := by
  have hcs : Real.cos t * Real.cos t + Real.sin t * Real.sin t = 1 := by
    have := Real.cos_sq_add_sin_sq t
    nlinarith [this]
  have hR2 : 0 < R * R := mul_self_pos.mpr hR
  have hp : ∀ z : ℝ, 0 < (![Real.cos t * R, Real.sin t * R, z] : Vector3 ℝ) 0
      * (![Real.cos t * R, Real.sin t * R, z] : Vector3 ℝ) 0
      + (![Real.cos t * R, Real.sin t * R, z] : Vector3 ℝ) 1
        * (![Real.cos t * R, Real.sin t * R, z] : Vector3 ℝ) 1 := by
    intro z
    simp only [Matrix.cons_val_zero, Matrix.cons_val_one, Matrix.head_cons]
    nlinarith [hcs, hR2]
  exact ⟨Posed.radial_frame _ t (hp 0), Posed.radial_frame _ t (hp _),
    Posed.radial_frame _ t (hp _)⟩

/-- C18 at radius `-1`, height parameter `1` and time `0`. -/
theorem C18_radial_frames_proper_witness :
    (-1 : ℝ) ≠ 0 ∧
    (Posed.IsRadialFrame Real.sqrt
        (SimuCircularMotion.GenPoseSequenceAtTime Real.cos Real.sin Real.sqrt (-1) 0) ∧
      Posed.IsRadialFrame Real.sqrt
        (SimuSpiralMotion.GenPoseSequenceAtTime Real.cos Real.sin Real.sqrt Real.pi (-1) 1 0) ∧
      Posed.IsRadialFrame Real.sqrt
        (SimuWaveMotion.GenPoseSequenceAtTime Real.cos Real.sin Real.sqrt Real.pi (-1) 1 0)) :=
  ⟨by norm_num, C18_radial_frames_proper (-1) 1 0 (by norm_num)⟩

/-- C19: the transform operators do not modify their operand. For a trajectory `s` whose
spline is in the store, each of `s * T`, `T * s` and `!s`, when it returns, returns a
trajectory that points to a spline object other than the one of `s`, and leaves `s` with
the same knots, cached samples and rate. Once the copy constructor's spline is constructed,
each operator returns and the value of its result is the one computed from the value of
`s`. -/
theorem C19_operators_leave_operand_unchanged {R V K : Type} [Zero K] [Group R]
    [AddCommGroup V] [DistribMulAction R V]
    (Create : K → K → K → Option (Trajectory (SE3 R V) K)) (h : TrajStore (SE3 R V) K)
    (s : SimuTrajectoryRef R V K) (T : SE3 R V) (v : Trajectory (SE3 R V) K)
    (hv : h.read s._trajectory = some v) :
    SimuTrajectoryRef.LeavesOperand h s (SimuTrajectoryRef.opMul Create h s T) ∧
    SimuTrajectoryRef.LeavesOperand h s (SimuTrajectoryRef.opMulLeft Create h T s) ∧
    SimuTrajectoryRef.LeavesOperand h s (SimuTrajectoryRef.opNot Create h s) ∧
    ∀ created : Trajectory (SE3 R V) K, Create 0 0 0 = some created →
      (∃ r h2, SimuTrajectoryRef.opMul Create h s T = some (r, h2) ∧
        SimuTrajectoryRef.value h2 r = SimuTrajectory.opMul Create ⟨s._poseSeq, s._hz, v⟩ T) ∧
      (∃ r h2, SimuTrajectoryRef.opMulLeft Create h T s = some (r, h2) ∧
        SimuTrajectoryRef.value h2 r
          = SimuTrajectory.opMulLeft Create T ⟨s._poseSeq, s._hz, v⟩) ∧
      (∃ r h2, SimuTrajectoryRef.opNot Create h s = some (r, h2) ∧
        SimuTrajectoryRef.value h2 r = SimuTrajectory.opNot Create ⟨s._poseSeq, s._hz, v⟩) := by
  refine ⟨SimuTrajectoryRef.transform_leavesOperand Create _ _ h s v hv,
    SimuTrajectoryRef.transform_leavesOperand Create _ _ h s v hv,
    SimuTrajectoryRef.transform_leavesOperand Create _ _ h s v hv, ?_⟩
  intro created hCreate
  refine ⟨?_, ?_, ?_⟩
  · rw [SimuTrajectory.opMul_of_created Create created hCreate]
    exact SimuTrajectoryRef.transform_value Create created hCreate _ _ h s v hv
  · rw [SimuTrajectory.opMulLeft_of_created Create created hCreate]
    exact SimuTrajectoryRef.transform_value Create created hCreate _ _ h s v hv
  · rw [SimuTrajectory.opNot_of_created Create created hCreate]
    exact SimuTrajectoryRef.transform_value Create created hCreate _ _ h s v hv

/-- C19 at the worked instance: the scaled trajectory is returned and the operand keeps its
value. -/
theorem C19_operators_leave_operand_unchanged_witness :
    Example.store.read Example.simuRef._trajectory = some Example.simu._trajectory ∧
    ∃ (r : SimuTrajectoryRef ℚˣ ℚ ℚ) (h2 : TrajStore (SE3 ℚˣ ℚ) ℚ),
      SimuTrajectoryRef.opMul Example.Create Example.store Example.simuRef Example.scaling
        = some (r, h2) ∧
      SimuTrajectoryRef.value h2 Example.simuRef = some Example.simu ∧
      r._trajectory ≠ Example.simuRef._trajectory :=
  have hv : Example.store.read Example.simuRef._trajectory = some Example.simu._trajectory :=
    rfl
  have h := C19_operators_leave_operand_unchanged Example.Create Example.store
    Example.simuRef Example.scaling Example.simu._trajectory hv
  have hex := (h.2.2.2 ⟨[], 0, 0⟩ rfl).1
  ⟨hv, hex.choose, hex.choose_spec.choose,
    hex.choose_spec.choose_spec.1,
    (h.1 _ _ hex.choose_spec.choose_spec.1).1,
    (h.1 _ _ hex.choose_spec.choose_spec.1).2⟩

end CTraj
